import Mathlib

/-!
# RedoRename (`rr.cpp`): traversal, hashing, duplicate index, database

A shallow embedding of `hashFile` and of the body of `main` of `rr.cpp`.

* The filesystem is a value of `FileSystem`: which paths are directories, what
  `fs::directory_iterator` lists for a directory, what opening and reading a path
  delivers, and for which paths `fs::is_directory` and `fs::directory_iterator` throw a
  `filesystem_error`. Such an error is a `std::runtime_error`: thrown at lines 128-131 it
  reaches the outer `catch` of lines 173-175, which prints it and returns 1.
* The database file of lines 117-118 is part of the environment (`DbFile`): whether the
  `std::ofstream` opens, how many lines the device takes before a write fails, and where
  the new file appears to the traversal. The stream is never tested by `main`: when it is
  not good an insertion writes nothing. Once opened, the file is an entry of the working
  directory, and the traversal meets it when that directory lies under the root.
* The streaming hash of `xxh3.h` is a parameter (`XXH3`): reset, update, digest.
* `std::ifstream` is modelled with its three state bits and `gcount`; a file that
  can be opened delivers finitely many bytes.
* `fileMap` (`std::unordered_map`) is an association list in insertion order.
* `dbStream` is the list of the lines that reached the database file and `std::cerr`
  the list of the texts inserted into it, one element per executed output statement; a
  write error of the database file is taken to fall between two lines.
* What the C++ standard leaves to the library is a parameter (`StdLib`): the
  value of an `fs::path` after it was the source of a move construction, and
  whether `unordered_map::emplace` builds the element before looking the key up.
* `readOptions` is outside the embedding: `main` starts from the `RROptions` it
  returned.  The `__RRPROGRESS` branch is not compiled in.
-/

namespace RedoRename

/-! ## Data model -/

abbrev Path := String

abbrev Byte := Nat

/-- The digest type of `xxh3.h`, an unsigned 64-bit integer. Digests are only compared
and printed in decimal, so the range is left to the engine. -/
abbrev XXH64_hash_t := Nat

/-- The streaming digest primitive declared in `xxh3.h`
(`XXH3_64bits_reset`, `XXH3_64bits_update`, `XXH3_64bits_digest`), a parameter of the
embedding. -/
structure XXH3 (σ : Type) where
  reset : σ
  update : σ → List Byte → σ
  digest : σ → XXH64_hash_t

/-- What opening and reading a path delivers: either the open fails, or the device
delivers `bytes` in order and then reports end-of-file (`readError = false`) or a
read error (`readError = true`). -/
inductive FileSource where
  | unopenable
  | data (bytes : List Byte) (readError : Bool)
  deriving DecidableEq

/-- How the environment treats the database file `<time>.db` that line 118 opens in the
working directory. -/
structure DbFile where
  /-- Whether `std::ofstream dbStream(dbFileName)` succeeds; if not, no file is created
  and the stream stays in a failed state. -/
  opens : Bool
  /-- Number of lines the device takes before a write fails (`none`: no write fails);
  after a failed write the stream is bad and takes nothing more. -/
  capacity : Option Nat
  /-- The working directory, under the name the traversal would reach it by. -/
  dir : Path
  /-- The database file, under the name `fs::directory_iterator` lists it by. -/
  path : Path
  /-- Place of the new entry in the listing of the working directory. -/
  position : Nat
  /-- What a read of the database file delivers when the traversal reaches it: the part
  of the output flushed by then. -/
  visible : FileSource

/-- The filesystem the program is started in. -/
structure FileSystem where
  is_directory : Path → Bool
  directory_iterator : Path → List Path
  source : Path → FileSource
  /-- The message of the `filesystem_error` that `fs::is_directory` throws for the path,
  when it throws. -/
  statError : Path → Option String
  /-- The message of the `filesystem_error` that iterating `fs::directory_iterator` over
  the path throws, when it throws. -/
  listError : Path → Option String
  dbFile : DbFile

/-- Library-defined behaviour the program depends on through
`fileMap.emplace(hash, std::move(node))` at line 160, after which lines 162-167 still
read `node`. -/
structure StdLib where
  /-- Value of an `fs::path` object after it was the source of a move construction; the
  standard says only that it is valid but unspecified. -/
  movedFrom : Path → Path
  /-- Whether `emplace` constructs the element, which moves from its second argument,
  before it looks the key up, so that `node` is moved from also when nothing is
  inserted; the standard allows both. When the element is inserted `node` is moved from
  in any case. -/
  emplaceConstructsFirst : Bool

/-- The library behaviour of libstdc++ (GCC 14 and earlier): the move constructor of
`fs::path` clears its source, and `_Hashtable::_M_emplace` first builds the node. -/
def libstdcxx : StdLib := ⟨fun _ => "", true⟩

/-- The library behaviour of libc++: a moved-from path holds a moved-from, hence empty,
string, and `emplace` called with a key and a value looks the key up before it builds
the node. -/
def libcxx : StdLib := ⟨fun _ => "", false⟩

/-! ## `std::ifstream` -/

structure IfStream where
  pending : List Byte
  readError : Bool
  eofbit : Bool
  failbit : Bool
  badbit : Bool
  gcount : Nat
  deriving DecidableEq

namespace IfStream

/-- Model of `inputFileStream.open(path, in | binary)`: a failed open sets `failbit`. -/
def openFile : FileSource → IfStream
  | .unopenable => ⟨[], false, false, true, false, 0⟩
  | .data bytes err => ⟨bytes, err, false, false, false, 0⟩

def good (s : IfStream) : Bool := !s.eofbit && !s.failbit && !s.badbit

def eof (s : IfStream) : Bool := s.eofbit

/-- Model of `read(buf, n)`: on a stream that is not good it sets `failbit` and extracts
nothing; otherwise it stores up to `n` characters at the start of `buf`; reaching
end-of-file first sets `eofbit` and `failbit`, a device error sets `badbit` with
`gcount = 0`. -/
def read (s : IfStream) (buf : List Byte) (n : Nat) : IfStream × List Byte :=
  if !s.good then ({ s with failbit := true, gcount := 0 }, buf)
  else if n ≤ s.pending.length then
    ({ s with pending := s.pending.drop n, gcount := n }, s.pending.take n ++ buf.drop n)
  else if s.readError then
    ({ s with pending := [], badbit := true, gcount := 0 },
      s.pending ++ buf.drop s.pending.length)
  else
    ({ s with pending := [], eofbit := true, failbit := true, gcount := s.pending.length },
      s.pending ++ buf.drop s.pending.length)

end IfStream

/-! ## `hashFile` (rr.cpp 78-103) -/

def BUFFER_SIZE : Nat := 128

/-- The loop `while (inputFileStream.good())` of `hashFile` (lines 90-93): read up to
`BUFFER_SIZE` bytes into `bytes`, then update the hash state with the first `gcount`
bytes of `bytes`. Returns the stream and the hash state at the exit of the loop. -/
def readLoop {σ : Type} (eng : XXH3 σ) (inputFileStream : IfStream) (bytes : List Byte)
    (hashState : σ) : IfStream × σ :=
  if inputFileStream.good = true then
    readLoop eng (inputFileStream.read bytes BUFFER_SIZE).1
      (inputFileStream.read bytes BUFFER_SIZE).2
      (eng.update hashState
        ((inputFileStream.read bytes BUFFER_SIZE).2.take
          (inputFileStream.read bytes BUFFER_SIZE).1.gcount))
  else (inputFileStream, hashState)
termination_by inputFileStream.pending.length + (if inputFileStream.good = true then 1 else 0)
decreasing_by
  rename_i hg
  simp only [IfStream.read, hg, Bool.not_true, Bool.false_eq_true, if_false, BUFFER_SIZE]
  split
  · rename_i hle
    simp only [List.length_drop, IfStream.good] at *
    split <;> omega
  · split <;> simp [IfStream.good]

/-- Model of `hashFile`: reset the engine, open the file, zero the buffer, run the loop,
then throw unless `eof()`; `Except.error what` is the thrown `std::runtime_error`. -/
def hashFile {σ : Type} (eng : XXH3 σ) (fs : FileSystem) (path : Path) :
    Except String XXH64_hash_t :=
  let r := readLoop eng (IfStream.openFile (fs.source path))
    (List.replicate BUFFER_SIZE 0) eng.reset
  if !r.1.eof then .error ("Error reading " ++ path ++ "!")
  else .ok (eng.digest r.2)

/-! ## `main` (rr.cpp 105-177) -/

structure RROptions where
  verbose : Bool
  dryRun : Bool
  rootSearchDirectory : Path

def DQUOTE : Char := Char.ofNat 34

def BACKSLASH : Char := Char.ofNat 92

def BAR : Char := Char.ofNat 124

def NEWLINE : Char := Char.ofNat 10

/-- Text written by `os << p` for an `fs::path` `p`: `std::quoted(p.string())`, the
pathname between double quotes with every double quote and backslash escaped. -/
def quoted (p : Path) : String :=
  String.mk ([DQUOTE]
    ++ (p.toList.map
        (fun c => if c = DQUOTE ∨ c = BACKSLASH then [BACKSLASH, c] else [c])).flatten
    ++ [DQUOTE])

/-- Text of `dbStream << hash << '|' << node << '\n'`. -/
def dbLine (hash : XXH64_hash_t) (node : Path) : String :=
  toString hash ++ "|" ++ quoted node ++ "\n"

/-- Text of the collision report written to `std::cerr`. -/
def collisionLine (existing node : Path) : String :=
  "[COLLISION] " ++ quoted existing ++ " hashed to the same value as " ++ quoted node ++ "\n"

/-- Text of `std::cerr << error.what() << '\n'`. -/
def errorLine (what : String) : String := what ++ "\n"

/-- Model of an insertion of one line into `dbStream`: it reaches the file when the
stream opened and the device still takes lines; otherwise the stream is not good and
the insertion writes nothing. -/
def DbFile.insert (db : DbFile) (stream : List String) (text : String) : List String :=
  if db.opens
      && (match db.capacity with
          | none => true
          | some c => decide (stream.length < c)) then
    stream ++ [text]
  else stream

/-- What the database file holds when the stream has taken the lines `stream`; `none`
when the file was never created. -/
def DbFile.holds (db : DbFile) (stream : List String) : Option (List String) :=
  if db.opens then some stream else none

/-- The filesystem as the traversal finds it, after line 118: when the database file
opened it is a regular file, listed in the working directory at its position unless it
was listed there already, and reading it delivers what is visible of it. -/
def FileSystem.withDatabase (fs : FileSystem) : FileSystem :=
  { fs with
    is_directory := fun p =>
      if fs.dbFile.opens = true ∧ p = fs.dbFile.path then false else fs.is_directory p
    directory_iterator := fun p =>
      if fs.dbFile.opens = true ∧ p = fs.dbFile.dir
          ∧ fs.dbFile.path ∉ fs.directory_iterator p then
        (fs.directory_iterator p).take fs.dbFile.position
          ++ fs.dbFile.path :: (fs.directory_iterator p).drop fs.dbFile.position
      else fs.directory_iterator p
    source := fun p =>
      if fs.dbFile.opens = true ∧ p = fs.dbFile.path then fs.dbFile.visible else fs.source p }

/-- The variables of the traversal loop, with two ghost traces: the directories expanded
and the paths handed to `hashFile`, both in order. -/
structure RunState where
  searchContainer : List Path
  fileMap : List (XXH64_hash_t × Path)
  dbStream : List String
  cerr : List String
  expanded : List Path
  hashed : List Path
  deriving DecidableEq

/-- Model of `fileMap.emplace(hash, node)`: the map afterwards, the mapped path the
returned iterator points at, and `valueInserted`. -/
def emplace (fileMap : List (XXH64_hash_t × Path)) (hash : XXH64_hash_t) (node : Path) :
    List (XXH64_hash_t × Path) × Path × Bool :=
  match fileMap.lookup hash with
  | some existing => (fileMap, existing, false)
  | none => (fileMap ++ [(hash, node)], node, true)

/-- Value of the variable `node` after `fileMap.emplace(hash, std::move(node))`. -/
def nodeAfterEmplace (lib : StdLib) (valueInserted : Bool) (node : Path) : Path :=
  if valueInserted || lib.emplaceConstructsFirst then lib.movedFrom node else node

/-- Lines 136-170: the body of the loop for a popped `node` that is not a directory. -/
def processFile {σ : Type} (lib : StdLib) (eng : XXH3 σ) (fs : FileSystem) (node : Path)
    (st : RunState) : RunState :=
  match hashFile eng fs node with
  | .error what =>
    { st with cerr := st.cerr ++ [errorLine what], hashed := st.hashed ++ [node] }
  | .ok hash =>
    let r := emplace st.fileMap hash node
    if !r.2.2 then
      { st with
        cerr := st.cerr ++ [collisionLine r.2.1 (nodeAfterEmplace lib r.2.2 node)],
        hashed := st.hashed ++ [node] }
    else
      { st with
        fileMap := r.1,
        dbStream :=
          fs.dbFile.insert st.dbStream (dbLine hash (nodeAfterEmplace lib r.2.2 node)),
        hashed := st.hashed ++ [node] }

/-- One iteration of `while (!searchContainer.empty())` (lines 125-170); the head of
`searchContainer` is the top of the stack. `Except.error what` is a `filesystem_error`
thrown by `fs::is_directory(node)` or by the iteration over
`fs::directory_iterator(node)`, which leaves the loop. -/
def step {σ : Type} (lib : StdLib) (eng : XXH3 σ) (fs : FileSystem) (st : RunState) :
    Except String RunState :=
  match st.searchContainer with
  | [] => .ok st
  | node :: rest =>
    match fs.statError node with
    | some what => .error what
    | none =>
      if fs.is_directory node then
        match fs.listError node with
        | some what => .error what
        | none =>
          .ok { st with
                searchContainer :=
                  (fs.directory_iterator node).foldl (fun stack child => child :: stack) rest,
                expanded := st.expanded ++ [node] }
      else
        .ok (processFile lib eng fs node { st with searchContainer := rest })

/-- How the loop of lines 124-171 was left: with an empty stack, or by a
`filesystem_error` thrown in the iteration that started in the state `st`, whose stack
still has the entry on top that the iteration takes from it. -/
inductive LoopEnd where
  | finished (st : RunState)
  | thrown (st : RunState) (what : String)
  deriving DecidableEq

/-- The loop of lines 124-171, run for at most `fuel` tests of its condition; `none` when
the loop is still running after that. -/
def mainLoop {σ : Type} (lib : StdLib) (eng : XXH3 σ) (fs : FileSystem) :
    Nat → RunState → Option LoopEnd
  | 0, _ => none
  | fuel + 1, st =>
    if st.searchContainer.isEmpty then some (.finished st)
    else
      match step lib eng fs st with
      | .error what => some (.thrown st what)
      | .ok next => mainLoop lib eng fs fuel next

/-- The state after `n` iterations of the loop from `st`; `none` when one of them
throws. -/
def iterations {σ : Type} (lib : StdLib) (eng : XXH3 σ) (fs : FileSystem) :
    Nat → RunState → Option RunState
  | 0, st => some st
  | n + 1, st =>
    match step lib eng fs st with
    | .error _ => none
    | .ok next => iterations lib eng fs n next

/-- State at line 124: the root pushed, an empty index, an empty database. -/
def initialState (root : Path) : RunState :=
  { searchContainer := [root], fileMap := [], dbStream := [], cerr := [],
    expanded := [], hashed := [] }

/-- What a run of `main` leaves behind. `dbFile = none`: no database file was created;
`dbFile = some lines`: the file was created and holds `lines`. -/
structure Outcome where
  exitStatus : Nat
  dbFile : Option (List String)
  cerr : List String
  fileMap : List (XXH64_hash_t × Path)
  expanded : List Path
  hashed : List Path
  deriving DecidableEq

/-- Model of `main` from line 111 on, for the options returned by `readOptions`: the
root check, which may itself throw; the opening of the database file; the loop over the
filesystem with that file in place; and the outer `catch`. -/
def main {σ : Type} (lib : StdLib) (eng : XXH3 σ) (fs : FileSystem) (fuel : Nat)
    (options : RROptions) : Option Outcome :=
  match fs.statError options.rootSearchDirectory with
  | some what =>
    some { exitStatus := 1, dbFile := none, cerr := [errorLine what],
           fileMap := [], expanded := [], hashed := [] }
  | none =>
    if !fs.is_directory options.rootSearchDirectory then
      some { exitStatus := 1, dbFile := none, cerr := ["<dir> must be a directory!\n"],
             fileMap := [], expanded := [], hashed := [] }
    else
      match mainLoop lib eng fs.withDatabase fuel
          (initialState options.rootSearchDirectory) with
      | none => none
      | some (.finished st) =>
        some { exitStatus := 0, dbFile := fs.dbFile.holds st.dbStream, cerr := st.cerr,
               fileMap := st.fileMap, expanded := st.expanded, hashed := st.hashed }
      | some (.thrown st what) =>
        some { exitStatus := 1, dbFile := fs.dbFile.holds st.dbStream,
               cerr := st.cerr ++ [errorLine what],
               fileMap := st.fileMap, expanded := st.expanded, hashed := st.hashed }

/-! ## Recursive descent, for comparison with the stack loop -/

/-- Whether everything reachable from `p` lies within `d` levels of directories, and
neither `fs::is_directory` nor `fs::directory_iterator` throws on any of it: the tree
under `p` is finite, has no cycle and can be walked. -/
def withinDepth (fs : FileSystem) : Nat → Path → Bool
  | 0, p => (fs.statError p).isNone && !fs.is_directory p
  | d + 1, p =>
    (fs.statError p).isNone
      && (!fs.is_directory p
        || ((fs.listError p).isNone && (fs.directory_iterator p).all (withinDepth fs d)))

/-- Non-directory entries under `p` by recursive descent, children in listing order. -/
def filesUnder (fs : FileSystem) : Nat → Path → List Path
  | 0, p => if fs.is_directory p then [] else [p]
  | d + 1, p =>
    if fs.is_directory p then
      ((fs.directory_iterator p).map (filesUnder fs d)).flatten
    else [p]

/-- An engine that records the chunks it is fed, in order. -/
def recorder : XXH3 (List (List Byte)) where
  reset := []
  update := fun log chunk => log ++ [chunk]
  digest := fun _ => 0

/-- The chunks the loop of `hashFile` passes to `XXH3_64bits_update` for a source, in
order: the loop run with the recording engine. -/
def chunksFed (src : FileSource) : List (List Byte) :=
  (readLoop recorder (IfStream.openFile src) (List.replicate BUFFER_SIZE 0) recorder.reset).2

/-- Reading the source reaches end-of-stream: it can be opened and no read fails. -/
def cleanEndOfStream : FileSource → Bool
  | .data _ false => true
  | _ => false

/-- Value of a string of decimal digits. -/
def decimalValue (cs : List Char) : Nat :=
  cs.foldl (fun acc c => 10 * acc + (c.toNat - 48)) 0

/-- The digest a database line carries: the decimal number in front of its first bar. -/
def lineDigest (line : String) : Nat :=
  decimalValue (line.data.takeWhile (fun c => c != BAR))

/-- Non-directory entries under `p` in the order the stack loop reaches them: within a
directory the entry listed last comes first. -/
def visitOrder (fs : FileSystem) : Nat → Path → List Path
  | 0, p => if fs.is_directory p then [] else [p]
  | d + 1, p =>
    if fs.is_directory p then
      ((fs.directory_iterator p).reverse.map (visitOrder fs d)).flatten
    else [p]

/-- Directories under `p` in the order the stack loop expands them. -/
def expandOrder (fs : FileSystem) : Nat → Path → List Path
  | 0, p => if fs.is_directory p then [p] else []
  | d + 1, p =>
    if fs.is_directory p then
      p :: ((fs.directory_iterator p).reverse.map (expandOrder fs d)).flatten
    else []

/-- Number of iterations the stack loop spends on the entry `p` and everything under
it: one per entry. -/
def loopIterations (fs : FileSystem) : Nat → Path → Nat
  | 0, _ => 1
  | d + 1, p =>
    if fs.is_directory p then
      1 + ((fs.directory_iterator p).map (loopIterations fs d)).sum
    else 1

/-- The loop body for files applied to a sequence of files, first to last. -/
def runFiles {σ : Type} (lib : StdLib) (eng : XXH3 σ) (fs : FileSystem) (files : List Path)
    (st : RunState) : RunState :=
  files.foldl (fun acc f => processFile lib eng fs f acc) st

/-- The state with the stack and the expansion trace replaced. -/
def withWalk (st : RunState) (stack dirs : List Path) : RunState :=
  { st with searchContainer := stack, expanded := dirs }

/-- State once everything under the entries `ps` on top of the stack has been handled
and `rest` is what remains of the stack. -/
def afterEntries {σ : Type} (lib : StdLib) (eng : XXH3 σ) (fs : FileSystem) (d : Nat)
    (ps rest : List Path) (st : RunState) : RunState :=
  withWalk (runFiles lib eng fs ((ps.map (visitOrder fs d)).flatten) st) rest
    (st.expanded ++ (ps.map (expandOrder fs d)).flatten)

/-- The database lines and the index entries correspond one to one, in order of
insertion: each line is the text line 167 writes for the key of its entry, so it carries
that key as its digest and ends in a newline; and no key occurs twice. -/
def Corresponds (lines : List String) (fileMap : List (XXH64_hash_t × Path)) : Prop :=
  List.Forall₂
      (fun line entry =>
        (∃ p, line = toString entry.1 ++ "|" ++ quoted p ++ "\n")
          ∧ lineDigest line = entry.1 ∧ line.data.getLast? = some NEWLINE)
      lines fileMap
    ∧ (fileMap.map Prod.fst).Nodup

/-! ## A small engine and filesystems for concrete runs -/

/-- A toy streaming hash: a polynomial hash modulo `2^64`. -/
def toyXXH3 : XXH3 Nat where
  reset := 7
  update := fun s bs => bs.foldl (fun acc b => (acc * 31 + b) % 2 ^ 64) s
  digest := fun s => s

/-- A database file that opens, takes every line, and is created in a working directory
`w` that the concrete trees below do not contain. -/
def outsideDb : DbFile :=
  { opens := true, capacity := none, dir := "w", path := "w/0.db", position := 0,
    visible := .data [] false }

/-- Directory `r` holding the single file `r/a`. -/
def singleFs : FileSystem where
  is_directory := fun p => p == "r"
  directory_iterator := fun p => if p == "r" then ["r/a"] else []
  source := fun p => if p == "r/a" then .data [1, 2, 3] false else .unopenable
  statError := fun _ => none
  listError := fun _ => none
  dbFile := outsideDb

/-- Directory `r` holding two files with the same content. -/
def twinsFs : FileSystem where
  is_directory := fun p => p == "r"
  directory_iterator := fun p => if p == "r" then ["r/a", "r/b"] else []
  source := fun p =>
    if p == "r/a" then .data [1, 2, 3] false
    else if p == "r/b" then .data [1, 2, 3] false
    else .unopenable
  statError := fun _ => none
  listError := fun _ => none
  dbFile := outsideDb

/-- Directory `r` holding an unreadable file `r/a` and a readable file `r/b`. -/
def mixedFs : FileSystem where
  is_directory := fun p => p == "r"
  directory_iterator := fun p => if p == "r" then ["r/a", "r/b"] else []
  source := fun p => if p == "r/b" then .data [4, 5] false else .unopenable
  statError := fun _ => none
  listError := fun _ => none
  dbFile := outsideDb

/-- Directory `r` holding the file `r/a` and the directory `r/s`, which holds `r/s/b`. -/
def nestedFs : FileSystem where
  is_directory := fun p => p == "r" || p == "r/s"
  directory_iterator := fun p =>
    if p == "r" then ["r/a", "r/s"] else if p == "r/s" then ["r/s/b"] else []
  source := fun p =>
    if p == "r/a" then .data [1] false
    else if p == "r/s/b" then .data [2] false
    else .unopenable
  statError := fun _ => none
  listError := fun _ => none
  dbFile := outsideDb

/-- The directory `r` of `singleFs`, with a database file that cannot be opened. -/
def closedDbFs : FileSystem :=
  { singleFs with dbFile := { outsideDb with opens := false } }

/-- The directory `r` of `singleFs`, with a database file that is opened but to which no
write succeeds, as on a full disk. -/
def fullDbFs : FileSystem :=
  { singleFs with dbFile := { outsideDb with capacity := some 0 } }

/-- An empty directory `r` that is also the working directory: the database file is
created in it as `r/0.db`, with nothing flushed when the traversal reads it. -/
def emptyRootFs : FileSystem where
  is_directory := fun p => p == "r"
  directory_iterator := fun _ => []
  source := fun _ => .unopenable
  statError := fun _ => none
  listError := fun _ => none
  dbFile :=
    { opens := true, capacity := none, dir := "r", path := "r/0.db", position := 0,
      visible := .data [] false }

/-- Directory `r` holding the readable file `r/a` and the empty directory `r/s`, which
cannot be listed. -/
def lockedDirFs : FileSystem where
  is_directory := fun p => p == "r" || p == "r/s"
  directory_iterator := fun p => if p == "r" then ["r/a", "r/s"] else []
  source := fun p => if p == "r/a" then .data [1] false else .unopenable
  statError := fun _ => none
  listError := fun p => if p == "r/s" then some "cannot open directory r/s" else none
  dbFile := outsideDb

theorem readLoop_of_not_good {σ : Type} (eng : XXH3 σ) (s : IfStream) (buf : List Byte) (h : σ)
    (hs : s.good = false) : readLoop eng s buf h = (s, h) := by
  rw [readLoop]; simp [hs]

theorem readLoop_of_good {σ : Type} (eng : XXH3 σ) (s : IfStream) (buf : List Byte) (h : σ)
    (hs : s.good = true) :
    readLoop eng s buf h
      = readLoop eng (s.read buf BUFFER_SIZE).1 (s.read buf BUFFER_SIZE).2
          (eng.update h ((s.read buf BUFFER_SIZE).2.take (s.read buf BUFFER_SIZE).1.gcount)) := by
  rw [readLoop]; simp [hs]

/-- Two engines driven by the same stream stay related by any relation their updates
preserve, and leave the stream in the same state. -/
theorem readLoop_simulation {σ τ : Type} (e₁ : XXH3 σ) (e₂ : XXH3 τ) (R : σ → τ → Prop)
    (hR : ∀ a b c, R a b → R (e₁.update a c) (e₂.update b c))
    (s : IfStream) (buf : List Byte) (h₁ : σ) :
    ∀ h₂, R h₁ h₂ →
      (readLoop e₁ s buf h₁).1 = (readLoop e₂ s buf h₂).1
        ∧ R (readLoop e₁ s buf h₁).2 (readLoop e₂ s buf h₂).2 := by
  induction s, buf, h₁ using readLoop.induct e₁ with
  | case1 s buf h₁ hg ih =>
    intro h₂ hrel
    rw [readLoop_of_good e₁ s buf h₁ hg, readLoop_of_good e₂ s buf h₂ hg]
    exact ih _ (hR _ _ _ hrel)
  | case2 s buf h₁ hg =>
    intro h₂ hrel
    have hg' : s.good = false := by simpa using hg
    rw [readLoop_of_not_good e₁ s buf h₁ hg', readLoop_of_not_good e₂ s buf h₂ hg']
    exact ⟨rfl, hrel⟩

/-- The hash state after the loop is the fold of `update` over the recorded chunks. -/
theorem readLoop_eq_foldl {σ : Type} (eng : XXH3 σ) (s : IfStream) (buf : List Byte) (h : σ) :
    readLoop eng s buf h
      = ((readLoop recorder s buf []).1, (readLoop recorder s buf []).2.foldl eng.update h) := by
  have := readLoop_simulation recorder eng (fun log x => x = log.foldl eng.update h)
    (by intro a b c hab; simp [recorder, hab]) s buf [] h rfl
  exact Prod.ext this.1.symm this.2

/-- On a good stream that ends in a clean end-of-file, the loop records chunks of at most
`BUFFER_SIZE` bytes whose concatenation is the pending content, and ends with `eofbit`. -/
theorem readLoop_recorder_clean (s : IfStream) (buf : List Byte) (log : List (List Byte)) :
    s.good = true → s.readError = false →
      ∃ cs, (readLoop recorder s buf log).2 = log ++ cs ∧ cs.flatten = s.pending
        ∧ (∀ c ∈ cs, c.length ≤ BUFFER_SIZE) ∧ cs ≠ []
        ∧ (readLoop recorder s buf log).1.eofbit = true := by
  induction s, buf, log using readLoop.induct recorder with
  | case1 s buf log hg ih =>
    intro _ herr
    rw [readLoop_of_good recorder s buf log hg]
    by_cases hle : BUFFER_SIZE ≤ s.pending.length
    · have hread : s.read buf BUFFER_SIZE
          = ({ s with pending := s.pending.drop BUFFER_SIZE, gcount := BUFFER_SIZE },
              s.pending.take BUFFER_SIZE ++ buf.drop BUFFER_SIZE) := by
        simp [IfStream.read, hg, hle]
      rw [hread] at ih ⊢
      have hg' : IfStream.good { s with pending := s.pending.drop BUFFER_SIZE, gcount := BUFFER_SIZE } = true := by
        simpa [IfStream.good] using hg
      obtain ⟨cs, h1, h2, h3, _, h5⟩ := ih hg' herr
      have htake : List.take BUFFER_SIZE (s.pending.take BUFFER_SIZE ++ buf.drop BUFFER_SIZE)
          = s.pending.take BUFFER_SIZE := by
        rw [List.take_append_of_le_length (by simp [hle]), List.take_take]; simp
      simp only [htake] at h1 h5 ⊢
      refine ⟨s.pending.take BUFFER_SIZE :: cs, ?_, ?_, ?_, by simp, h5⟩
      · rw [h1]; simp [recorder]
      · simp only [List.flatten_cons]
        simp only at h2
        rw [h2, List.take_append_drop]
      · intro c hc
        rcases List.mem_cons.1 hc with rfl | hc
        · simp
        · exact h3 c hc
    · have hread : s.read buf BUFFER_SIZE
          = ({ s with pending := [], eofbit := true, failbit := true, gcount := s.pending.length },
              s.pending ++ buf.drop s.pending.length) := by
        simp [IfStream.read, hg, hle, herr]
      rw [hread]
      rw [readLoop_of_not_good _ _ _ _ (by simp [IfStream.good])]
      refine ⟨[s.pending], ?_, by simp, ?_, by simp, rfl⟩
      · simp [recorder]
      · intro c hc
        simp only [List.mem_singleton] at hc
        subst hc
        omega
  | case2 s buf log hg =>
    intro hg'
    exact absurd hg' hg

/-- A stream whose device reports a read error never gets `eofbit`. -/
theorem readLoop_readError {σ : Type} (eng : XXH3 σ) (s : IfStream) (buf : List Byte) (h : σ) :
    s.eofbit = false → s.readError = true → (readLoop eng s buf h).1.eofbit = false := by
  induction s, buf, h using readLoop.induct eng with
  | case1 s buf h hg ih =>
    intro heof herr
    rw [readLoop_of_good eng s buf h hg]
    by_cases hle : BUFFER_SIZE ≤ s.pending.length
    · have hread : s.read buf BUFFER_SIZE
          = ({ s with pending := s.pending.drop BUFFER_SIZE, gcount := BUFFER_SIZE },
              s.pending.take BUFFER_SIZE ++ buf.drop BUFFER_SIZE) := by
        simp [IfStream.read, hg, hle]
      rw [hread] at ih ⊢
      exact ih heof herr
    · have hread : s.read buf BUFFER_SIZE
          = ({ s with pending := [], badbit := true, gcount := 0 },
              s.pending ++ buf.drop s.pending.length) := by
        simp [IfStream.read, hg, hle, herr]
      rw [hread]
      rw [readLoop_of_not_good _ _ _ _ (by simp [IfStream.good])]
      exact heof
  | case2 s buf h hg =>
    intro heof _
    rw [readLoop_of_not_good eng s buf h (by simpa using hg)]
    exact heof

theorem hashFile_of_clean {σ : Type} (eng : XXH3 σ) (fs : FileSystem) (path : Path)
    (b : List Byte) (hsrc : fs.source path = .data b false) :
    hashFile eng fs path
        = .ok (eng.digest ((chunksFed (.data b false)).foldl eng.update eng.reset))
      ∧ (chunksFed (.data b false)).flatten = b
      ∧ (∀ c ∈ chunksFed (.data b false), c.length ≤ BUFFER_SIZE)
      ∧ chunksFed (.data b false) ≠ [] := by
  obtain ⟨cs, h1, h2, h3, h4, h5⟩ := readLoop_recorder_clean (IfStream.openFile (.data b false))
    (List.replicate BUFFER_SIZE 0) [] rfl rfl
  have hcs : chunksFed (.data b false) = cs := by simpa [chunksFed, recorder] using h1
  refine ⟨?_, ?_, ?_, ?_⟩
  · unfold hashFile
    rw [hsrc, readLoop_eq_foldl]
    simp only [IfStream.eof, h5]
    rfl
  · rw [hcs, h2]; rfl
  · rw [hcs]; exact h3
  · rw [hcs]; exact h4

theorem hashFile_of_not_clean {σ : Type} (eng : XXH3 σ) (fs : FileSystem) (path : Path)
    (hsrc : cleanEndOfStream (fs.source path) = false) :
    hashFile eng fs path = .error ("Error reading " ++ path ++ "!") := by
  have heof : (readLoop eng (IfStream.openFile (fs.source path))
      (List.replicate BUFFER_SIZE 0) eng.reset).1.eofbit = false := by
    cases hs : fs.source path with
    | unopenable =>
      rw [readLoop_of_not_good _ _ _ _ (by rfl)]; rfl
    | data b err =>
      cases err with
      | false => rw [hs] at hsrc; simp [cleanEndOfStream] at hsrc
      | true => exact readLoop_readError eng _ _ _ rfl rfl
  unfold hashFile
  simp only [IfStream.eof, heof]
  rfl

theorem hashFile_of_small {σ : Type} (eng : XXH3 σ) (fs : FileSystem) (path : Path)
    (b : List Byte) (hsrc : fs.source path = .data b false) (hlen : b.length < BUFFER_SIZE) :
    hashFile eng fs path = .ok (eng.digest (eng.update eng.reset b)) := by
  have hread : (IfStream.openFile (.data b false)).read (List.replicate BUFFER_SIZE 0) BUFFER_SIZE
      = (⟨[], false, true, true, false, b.length⟩,
          b ++ (List.replicate BUFFER_SIZE 0).drop b.length) := by
    simp [IfStream.read, IfStream.openFile, IfStream.good, Nat.not_le.2 hlen]
  unfold hashFile
  rw [hsrc, readLoop_of_good _ _ _ _ (by rfl), hread, readLoop_of_not_good _ _ _ _ (by rfl)]
  simp [IfStream.eof]

theorem toyXXH3_foldl_update (cs : List (List Byte)) (s : Nat) :
    cs.foldl toyXXH3.update s = toyXXH3.update s cs.flatten := by
  induction cs generalizing s with
  | nil => rfl
  | cons c cs ih =>
    rw [List.foldl_cons, ih]
    simp [toyXXH3, List.foldl_append]

/-! ## Claims about `hashFile` -/

/-- C9: `hashFile` throws exactly when reading the path does not reach a clean
end-of-stream, which includes a file that cannot be opened; the error it throws is
`Error reading <path>!`, naming the path; and when end-of-stream is reached, an empty
file included, it returns a digest. -/
theorem hashFile_throws_iff_no_clean_end_of_stream {σ : Type} (eng : XXH3 σ)
    (fs : FileSystem) (path : Path) :
    ((∃ what, hashFile eng fs path = .error what) ↔ cleanEndOfStream (fs.source path) = false)
      ∧ (fs.source path = .unopenable
          → hashFile eng fs path = .error ("Error reading " ++ path ++ "!"))
      ∧ (∀ what, hashFile eng fs path = .error what → what = "Error reading " ++ path ++ "!")
      ∧ (cleanEndOfStream (fs.source path) = true → ∃ digest, hashFile eng fs path = .ok digest)
      ∧ (fs.source path = .data [] false
          → hashFile eng fs path = .ok (eng.digest (eng.update eng.reset []))) := by
  have hclean : cleanEndOfStream (fs.source path) = true → ∃ digest,
      hashFile eng fs path = .ok digest := by
    intro hc
    cases hs : fs.source path with
    | unopenable => rw [hs] at hc; simp [cleanEndOfStream] at hc
    | data b err =>
      cases err with
      | true => rw [hs] at hc; simp [cleanEndOfStream] at hc
      | false => exact ⟨_, (hashFile_of_clean eng fs path b hs).1⟩
  refine ⟨⟨?_, ?_⟩, ?_, ?_, hclean, ?_⟩
  · rintro ⟨what, hw⟩
    cases hc : cleanEndOfStream (fs.source path) with
    | false => rfl
    | true =>
      obtain ⟨digest, hd⟩ := hclean hc
      rw [hd] at hw
      cases hw
  · intro hc
    exact ⟨_, hashFile_of_not_clean eng fs path hc⟩
  · intro hs
    exact hashFile_of_not_clean eng fs path (by rw [hs]; rfl)
  · intro what hw
    cases hc : cleanEndOfStream (fs.source path) with
    | false =>
      rw [hashFile_of_not_clean eng fs path hc] at hw
      cases hw
      rfl
    | true =>
      obtain ⟨digest, hd⟩ := hclean hc
      rw [hd] at hw
      cases hw
  · intro hs
    exact hashFile_of_small eng fs path [] hs (by decide)

/-- The unopenable file `r/a` of `mixedFs` makes `hashFile` throw the error naming it. -/
theorem hashFile_throws_iff_no_clean_end_of_stream_witness :
    mixedFs.source "r/a" = .unopenable
      ∧ hashFile toyXXH3 mixedFs "r/a" = .error ("Error reading " ++ "r/a" ++ "!") :=
  ⟨rfl, (hashFile_throws_iff_no_clean_end_of_stream toyXXH3 mixedFs "r/a").2.1 rfl⟩

/-- C10: for a file readable to its end with content `b`, the engine starts from its
reset state and is fed chunks of at most 128 bytes whose concatenation is `b`; the value
returned is the digest of the state so reached; any other file with content `b` gets the
same value; and if the digest depends only on the concatenation of the updates, the value
is the digest of `b` fed in one piece. -/
theorem hashFile_digests_full_content {σ : Type} (eng : XXH3 σ) (fs : FileSystem)
    (path : Path) (b : List Byte) (hsrc : fs.source path = .data b false) :
    (∀ c ∈ chunksFed (fs.source path), c.length ≤ 128)
      ∧ (chunksFed (fs.source path)).flatten = b
      ∧ hashFile eng fs path
          = .ok (eng.digest ((chunksFed (fs.source path)).foldl eng.update eng.reset))
      ∧ (∀ (fs₂ : FileSystem) (path₂ : Path), fs₂.source path₂ = .data b false
          → hashFile eng fs₂ path₂ = hashFile eng fs path)
      ∧ ((∀ cs₁ cs₂ : List (List Byte), cs₁.flatten = cs₂.flatten →
            eng.digest (cs₁.foldl eng.update eng.reset)
              = eng.digest (cs₂.foldl eng.update eng.reset))
          → hashFile eng fs path = .ok (eng.digest (eng.update eng.reset b))) := by
  obtain ⟨h1, h2, h3, _⟩ := hashFile_of_clean eng fs path b hsrc
  rw [hsrc]
  refine ⟨h3, h2, h1, ?_, ?_⟩
  · intro fs₂ path₂ hsrc₂
    rw [h1, (hashFile_of_clean eng fs₂ path₂ b hsrc₂).1]
  · intro hconcat
    rw [h1]
    have := hconcat (chunksFed (.data b false)) [b] (by simp [h2])
    rw [this]
    rfl

/-- The file `r/a` of `singleFs`, with the toy engine, whose digest depends only on the
concatenation of the updates. -/
theorem hashFile_digests_full_content_witness :
    singleFs.source "r/a" = .data [1, 2, 3] false
      ∧ (chunksFed (singleFs.source "r/a")).flatten = [1, 2, 3]
      ∧ hashFile toyXXH3 singleFs "r/a"
          = .ok (toyXXH3.digest (toyXXH3.update toyXXH3.reset [1, 2, 3])) :=
  ⟨rfl, (hashFile_digests_full_content toyXXH3 singleFs "r/a" [1, 2, 3] rfl).2.1,
    (hashFile_digests_full_content toyXXH3 singleFs "r/a" [1, 2, 3] rfl).2.2.2.2
      (fun cs₁ cs₂ h => by
        rw [toyXXH3_foldl_update, toyXXH3_foldl_update, h])⟩


/-! ## The digest carried by a database line -/

theorem digitChar_value : ∀ m, m < 10 → (Nat.digitChar m).toNat - 48 = m := by decide

theorem digitChar_ne_bar : ∀ m, m < 10 → (Nat.digitChar m != BAR) = true := by decide

theorem toDigitsCore_append (fuel n : Nat) (ds : List Char) :
    Nat.toDigitsCore 10 fuel n ds = Nat.toDigitsCore 10 fuel n [] ++ ds := by
  induction fuel generalizing n ds with
  | zero => simp [Nat.toDigitsCore]
  | succ fuel ih =>
    simp only [Nat.toDigitsCore]
    split
    · simp
    · rw [ih, ih (n / 10) [Nat.digitChar (n % 10)]]
      simp

theorem toDigitsCore_ne_bar (fuel n : Nat) :
    ∀ c ∈ Nat.toDigitsCore 10 fuel n [], (c != BAR) = true := by
  induction fuel generalizing n with
  | zero => simp [Nat.toDigitsCore]
  | succ fuel ih =>
    intro c hc
    simp only [Nat.toDigitsCore] at hc
    split at hc
    · simp only [List.mem_singleton] at hc
      subst hc
      exact digitChar_ne_bar _ (Nat.mod_lt _ (by decide))
    · rw [toDigitsCore_append] at hc
      rcases List.mem_append.1 hc with hc | hc
      · exact ih _ c hc
      · simp only [List.mem_singleton] at hc
        subst hc
        exact digitChar_ne_bar _ (Nat.mod_lt _ (by decide))

theorem decimalValue_append_singleton (cs : List Char) (c : Char) :
    decimalValue (cs ++ [c]) = 10 * decimalValue cs + (c.toNat - 48) := by
  simp [decimalValue, List.foldl_append]

theorem decimalValue_toDigitsCore (fuel n : Nat) (h : n < fuel) :
    decimalValue (Nat.toDigitsCore 10 fuel n []) = n := by
  induction fuel generalizing n with
  | zero => omega
  | succ fuel ih =>
    simp only [Nat.toDigitsCore]
    split
    · rename_i h0
      have hmod : n % 10 = n := by omega
      have hval := digitChar_value _ (Nat.mod_lt n (by decide))
      rw [hmod] at hval
      simp [decimalValue, hmod, hval]
    · rename_i h0
      rw [toDigitsCore_append, decimalValue_append_singleton, ih (n / 10) (by omega),
        digitChar_value _ (Nat.mod_lt n (by decide))]
      omega

theorem lineDigest_dbLine (hash : XXH64_hash_t) (node : Path) :
    lineDigest (dbLine hash node) = hash := by
  have hdata : (dbLine hash node).data
      = Nat.toDigitsCore 10 (hash + 1) hash [] ++ BAR :: ((quoted node).data ++ [NEWLINE]) := by
    simp [dbLine, String.data_append, toString, Nat.repr, Nat.toDigits, List.asString]
    exact ⟨by decide, by decide⟩
  have hbar : (BAR != BAR) = false := by decide
  rw [lineDigest, hdata, List.takeWhile_append_of_pos (toDigitsCore_ne_bar _ _)]
  simp only [List.takeWhile_cons, hbar, Bool.false_eq_true, if_false, List.append_nil]
  exact decimalValue_toDigitsCore (hash + 1) hash (Nat.lt_succ_self _)

theorem dbLine_getLast (hash : XXH64_hash_t) (node : Path) :
    (dbLine hash node).data.getLast? = some NEWLINE := by
  have hdata : (dbLine hash node).data
      = ((toString hash).data ++ BAR :: (quoted node).data) ++ [NEWLINE] := by
    simp [dbLine, String.data_append]
    exact ⟨by decide, by decide⟩
  rw [hdata, List.getLast?_append]
  rfl


/-! ## The stack loop against recursive descent -/

theorem foldl_push (l rest : List Path) :
    l.foldl (fun stack child => child :: stack) rest = l.reverse ++ rest := by
  induction l generalizing rest with
  | nil => rfl
  | cons a l ih => simp [ih]

theorem withWalk_withWalk (st : RunState) (a b c d : List Path) :
    withWalk (withWalk st a b) c d = withWalk st c d := rfl

theorem withWalk_expanded (st : RunState) (a b : List Path) :
    (withWalk st a b).expanded = b := rfl

theorem processFile_of_error {σ : Type} (lib : StdLib) (eng : XXH3 σ) (fs : FileSystem)
    (node : Path) (st : RunState) (what : String) (hh : hashFile eng fs node = .error what) :
    processFile lib eng fs node st
      = { st with cerr := st.cerr ++ [errorLine what], hashed := st.hashed ++ [node] } := by
  simp only [processFile, hh]

theorem processFile_of_collision {σ : Type} (lib : StdLib) (eng : XXH3 σ) (fs : FileSystem)
    (node : Path) (st : RunState) (hash : XXH64_hash_t) (existing : Path)
    (hh : hashFile eng fs node = .ok hash) (hl : st.fileMap.lookup hash = some existing) :
    processFile lib eng fs node st
      = { st with
          cerr := st.cerr ++ [collisionLine existing (nodeAfterEmplace lib false node)],
          hashed := st.hashed ++ [node] } := by
  simp [processFile, hh, emplace, hl]

theorem processFile_of_accept {σ : Type} (lib : StdLib) (eng : XXH3 σ) (fs : FileSystem)
    (node : Path) (st : RunState) (hash : XXH64_hash_t)
    (hh : hashFile eng fs node = .ok hash) (hl : st.fileMap.lookup hash = none) :
    processFile lib eng fs node st
      = { st with
          fileMap := st.fileMap ++ [(hash, node)],
          dbStream := fs.dbFile.insert st.dbStream (dbLine hash (lib.movedFrom node)),
          hashed := st.hashed ++ [node] } := by
  simp [processFile, hh, emplace, hl, nodeAfterEmplace]

theorem insert_of_sound (db : DbFile) (stream : List String) (text : String)
    (hopen : db.opens = true) (hcap : db.capacity = none) :
    db.insert stream text = stream ++ [text] := by
  simp [DbFile.insert, hopen, hcap]

theorem insert_of_closed (db : DbFile) (stream : List String) (text : String)
    (hopen : db.opens = false) : db.insert stream text = stream := by
  simp [DbFile.insert, hopen]

theorem processFile_withWalk {σ : Type} (lib : StdLib) (eng : XXH3 σ) (fs : FileSystem)
    (node : Path) (st : RunState) (stack dirs : List Path) :
    processFile lib eng fs node (withWalk st stack dirs)
      = withWalk (processFile lib eng fs node st) stack dirs := by
  cases hh : hashFile eng fs node with
  | error what =>
    rw [processFile_of_error lib eng fs node _ what hh,
      processFile_of_error lib eng fs node _ what hh]
    rfl
  | ok hash =>
    cases hl : st.fileMap.lookup hash with
    | none =>
      rw [processFile_of_accept lib eng fs node _ hash hh hl,
        processFile_of_accept lib eng fs node _ hash hh (by exact hl)]
      rfl
    | some existing =>
      rw [processFile_of_collision lib eng fs node _ hash existing hh hl,
        processFile_of_collision lib eng fs node _ hash existing hh (by exact hl)]
      rfl

theorem runFiles_withWalk {σ : Type} (lib : StdLib) (eng : XXH3 σ) (fs : FileSystem)
    (files : List Path) (st : RunState) (stack dirs : List Path) :
    runFiles lib eng fs files (withWalk st stack dirs)
      = withWalk (runFiles lib eng fs files st) stack dirs := by
  induction files generalizing st with
  | nil => rfl
  | cons f files ih =>
    simp only [runFiles, List.foldl_cons] at ih ⊢
    rw [processFile_withWalk, ih]

theorem runFiles_append {σ : Type} (lib : StdLib) (eng : XXH3 σ) (fs : FileSystem)
    (xs ys : List Path) (st : RunState) :
    runFiles lib eng fs (xs ++ ys) st = runFiles lib eng fs ys (runFiles lib eng fs xs st) := by
  simp [runFiles]

theorem mainLoop_succ_of_ok {σ : Type} (lib : StdLib) (eng : XXH3 σ) (fs : FileSystem)
    (fuel : Nat) (st next : RunState) (p : Path) (rest : List Path)
    (hst : st.searchContainer = p :: rest) (hstep : step lib eng fs st = .ok next) :
    mainLoop lib eng fs (fuel + 1) st = mainLoop lib eng fs fuel next := by
  simp [mainLoop, hst, hstep]

theorem step_of_file {σ : Type} (lib : StdLib) (eng : XXH3 σ) (fs : FileSystem)
    (st : RunState) (p : Path) (rest : List Path) (hst : st.searchContainer = p :: rest)
    (hstat : fs.statError p = none) (hdir : fs.is_directory p = false) :
    step lib eng fs st = .ok (withWalk (processFile lib eng fs p st) rest st.expanded) := by
  rw [← processFile_withWalk]
  simp only [step, hst, hstat, hdir]
  rfl

theorem step_of_directory {σ : Type} (lib : StdLib) (eng : XXH3 σ) (fs : FileSystem)
    (st : RunState) (p : Path) (rest : List Path) (hst : st.searchContainer = p :: rest)
    (hstat : fs.statError p = none) (hdir : fs.is_directory p = true)
    (hlist : fs.listError p = none) :
    step lib eng fs st
      = .ok (withWalk st ((fs.directory_iterator p).reverse ++ rest) (st.expanded ++ [p])) := by
  simp only [step, hst, hstat, hdir, hlist, foldl_push]
  rfl

theorem withinDepth_statError (fs : FileSystem) (d : Nat) (p : Path)
    (h : withinDepth fs d p = true) : fs.statError p = none := by
  cases d <;> simp [withinDepth] at h <;> exact h.1

theorem withinDepth_zero_file (fs : FileSystem) (p : Path)
    (h : withinDepth fs 0 p = true) : fs.is_directory p = false := by
  simp [withinDepth] at h
  exact h.2

theorem withinDepth_succ_directory (fs : FileSystem) (d : Nat) (p : Path)
    (h : withinDepth fs (d + 1) p = true) (hdir : fs.is_directory p = true) :
    fs.listError p = none ∧ ∀ c ∈ fs.directory_iterator p, withinDepth fs d c = true := by
  simp [withinDepth, hdir] at h
  exact ⟨h.2.1, h.2.2⟩

theorem mainLoop_entries_of_entry {σ : Type} (lib : StdLib) (eng : XXH3 σ) (fs : FileSystem)
    (d : Nat)
    (hA : ∀ p, withinDepth fs d p = true → ∀ rest st, st.searchContainer = p :: rest →
      ∀ fuel, mainLoop lib eng fs (fuel + loopIterations fs d p) st
        = mainLoop lib eng fs fuel (afterEntries lib eng fs d [p] rest st))
    (ps : List Path) :
    (∀ p ∈ ps, withinDepth fs d p = true) → ∀ rest st, st.searchContainer = ps ++ rest →
      ∀ fuel, mainLoop lib eng fs (fuel + (ps.map (loopIterations fs d)).sum) st
        = mainLoop lib eng fs fuel (afterEntries lib eng fs d ps rest st) := by
  induction ps with
  | nil =>
    intro _ rest st hst fuel
    have : afterEntries lib eng fs d [] rest st = st := by
      simp only [afterEntries, List.map_nil, List.flatten_nil, List.append_nil, runFiles,
        List.foldl_nil]
      rw [show rest = st.searchContainer by simpa using hst.symm]
      rfl
    rw [this]; rfl
  | cons p ps ih =>
    intro hps rest st hst fuel
    have h₁ := hA p (hps p (List.mem_cons_self _ _)) (ps ++ rest) st (by simpa using hst)
    have h₂ := ih (fun q hq => hps q (List.mem_cons_of_mem _ hq)) rest
      (afterEntries lib eng fs d [p] (ps ++ rest) st) rfl
    rw [List.map_cons, List.sum_cons,
      show fuel + (loopIterations fs d p + (ps.map (loopIterations fs d)).sum)
        = fuel + (ps.map (loopIterations fs d)).sum + loopIterations fs d p by omega,
      h₁, h₂]
    congr 1
    simp only [afterEntries, List.map_cons, List.map_nil, List.flatten_cons, List.flatten_nil,
      List.append_nil, runFiles_withWalk, runFiles_append, List.append_assoc, withWalk_withWalk,
      withWalk_expanded]

theorem mainLoop_entry {σ : Type} (lib : StdLib) (eng : XXH3 σ) (fs : FileSystem) (d : Nat) :
    ∀ p, withinDepth fs d p = true → ∀ rest st, st.searchContainer = p :: rest →
      ∀ fuel, mainLoop lib eng fs (fuel + loopIterations fs d p) st
        = mainLoop lib eng fs fuel (afterEntries lib eng fs d [p] rest st) := by
  have hfile : ∀ d p, fs.statError p = none → fs.is_directory p = false →
      ∀ rest st, st.searchContainer = p :: rest →
      ∀ fuel, mainLoop lib eng fs (fuel + loopIterations fs d p) st
        = mainLoop lib eng fs fuel (afterEntries lib eng fs d [p] rest st) := by
    intro d p hstat hdir rest st hst fuel
    have hone : loopIterations fs d p = 1 := by
      cases d <;> simp [loopIterations, hdir]
    rw [hone, mainLoop_succ_of_ok lib eng fs fuel st _ p rest hst
      (step_of_file lib eng fs st p rest hst hstat hdir)]
    congr 1
    cases d <;>
      simp [afterEntries, visitOrder, expandOrder, hdir, runFiles]
  induction d with
  | zero =>
    intro p hp rest st hst
    exact hfile 0 p (withinDepth_statError fs 0 p hp) (withinDepth_zero_file fs p hp) rest st hst
  | succ d ih =>
    intro p hp rest st hst fuel
    have hstat := withinDepth_statError fs (d + 1) p hp
    by_cases hdir : fs.is_directory p = true
    · obtain ⟨hlist, hall⟩ := withinDepth_succ_directory fs d p hp hdir
      have hch : ∀ c ∈ (fs.directory_iterator p).reverse, withinDepth fs d c = true :=
        fun c hc => hall c (List.mem_reverse.1 hc)
      have hstep := step_of_directory lib eng fs st p rest hst hstat hdir hlist
      have hk := mainLoop_entries_of_entry lib eng fs d ih _ hch rest
        (withWalk st ((fs.directory_iterator p).reverse ++ rest) (st.expanded ++ [p])) rfl fuel
      rw [List.map_reverse, List.sum_reverse] at hk
      rw [show loopIterations fs (d + 1) p
          = ((fs.directory_iterator p).map (loopIterations fs d)).sum + 1 by
        simp [loopIterations, hdir, Nat.add_comm],
        ← Nat.add_assoc, mainLoop_succ_of_ok lib eng fs _ st _ p rest hst hstep, hk]
      congr 1
      simp only [afterEntries, visitOrder, expandOrder, hdir, if_true, List.map_cons, List.map_nil,
        List.flatten_cons, List.flatten_nil, List.append_nil, runFiles_withWalk, withWalk_withWalk]
      simp [withWalk, List.append_assoc]
    · exact hfile (d + 1) p hstat (by simpa using hdir) rest st hst fuel

theorem mainLoop_of_withinDepth {σ : Type} (lib : StdLib) (eng : XXH3 σ) (fs : FileSystem)
    (d : Nat) (root : Path) (hfin : withinDepth fs d root = true)
    (fuel : Nat) (hfuel : loopIterations fs d root < fuel) :
    mainLoop lib eng fs fuel (initialState root)
      = some (.finished (afterEntries lib eng fs d [root] [] (initialState root))) := by
  have hk := mainLoop_entry lib eng fs d root hfin [] (initialState root) rfl
  obtain ⟨m, rfl⟩ : ∃ m, fuel = (m + 1) + loopIterations fs d root :=
    ⟨fuel - loopIterations fs d root - 1, by omega⟩
  rw [hk]
  rfl


theorem runFiles_hashed {σ : Type} (lib : StdLib) (eng : XXH3 σ) (fs : FileSystem)
    (files : List Path) (st : RunState) :
    (runFiles lib eng fs files st).hashed = st.hashed ++ files := by
  induction files generalizing st with
  | nil => simp [runFiles]
  | cons f files ih =>
    simp only [runFiles, List.foldl_cons] at ih ⊢
    rw [ih]
    have : (processFile lib eng fs f st).hashed = st.hashed ++ [f] := by
      cases hh : hashFile eng fs f with
      | error what => rw [processFile_of_error lib eng fs f _ what hh]
      | ok hash =>
        cases hl : st.fileMap.lookup hash with
        | none => rw [processFile_of_accept lib eng fs f _ hash hh hl]
        | some existing => rw [processFile_of_collision lib eng fs f _ hash existing hh hl]
    rw [this]
    simp

theorem perm_flatten_map {α β : Type} (f g : α → List β) (l : List α)
    (h : ∀ x ∈ l, (f x).Perm (g x)) : (l.map f).flatten.Perm (l.map g).flatten := by
  induction l with
  | nil => exact List.Perm.refl _
  | cons a l ih =>
    simp only [List.map_cons, List.flatten_cons]
    exact List.Perm.append (h a (List.mem_cons_self _ _))
      (ih (fun x hx => h x (List.mem_cons_of_mem _ hx)))

theorem visitOrder_perm (fs : FileSystem) (d : Nat) (p : Path) :
    (visitOrder fs d p).Perm (filesUnder fs d p) := by
  induction d generalizing p with
  | zero => simp [visitOrder, filesUnder]
  | succ d ih =>
    simp only [visitOrder, filesUnder]
    split
    · exact (((List.reverse_perm _).map _).flatten).trans
        (perm_flatten_map _ _ _ (fun x _ => ih x))
    · exact List.Perm.refl _

theorem insert_outsideDb (stream : List String) (text : String) :
    outsideDb.insert stream text = stream ++ [text] :=
  insert_of_sound _ _ _ rfl rfl

theorem main_singleFs {σ : Type} (lib : StdLib) (eng : XXH3 σ) :
    main lib eng singleFs 3 ⟨false, false, "r"⟩
      = some ⟨0,
          some [dbLine (eng.digest (eng.update eng.reset [1, 2, 3])) (lib.movedFrom "r/a")],
          [], [(eng.digest (eng.update eng.reset [1, 2, 3]), "r/a")], ["r"], ["r/a"]⟩ := by
  have ha : hashFile eng singleFs.withDatabase "r/a"
      = .ok (eng.digest (eng.update eng.reset [1, 2, 3])) :=
    hashFile_of_small eng singleFs.withDatabase "r/a" [1, 2, 3] (by decide) (by decide)
  have d0 : singleFs.is_directory "r" = true := by decide
  have s0 : singleFs.statError "r" = none := rfl
  have d1 : singleFs.withDatabase.is_directory "r" = true := by decide
  have d2 : singleFs.withDatabase.is_directory "r/a" = false := by decide
  have l1 : singleFs.withDatabase.directory_iterator "r" = ["r/a"] := by decide
  have s1 : ∀ p, singleFs.withDatabase.statError p = none := fun _ => rfl
  have e1 : ∀ p, singleFs.withDatabase.listError p = none := fun _ => rfl
  have i1 : ∀ stream text, singleFs.withDatabase.dbFile.insert stream text = stream ++ [text] :=
    insert_outsideDb
  have o1 : ∀ lines, singleFs.dbFile.holds lines = some lines := fun _ => rfl
  simp [main, mainLoop, step, processFile, ha, d0, s0, d1, d2, l1, s1, e1, i1, o1,
    initialState, emplace, nodeAfterEmplace, List.lookup]

theorem main_twinsFs {σ : Type} (lib : StdLib) (eng : XXH3 σ) :
    main lib eng twinsFs 4 ⟨false, false, "r"⟩
      = some ⟨0,
          some [dbLine (eng.digest (eng.update eng.reset [1, 2, 3])) (lib.movedFrom "r/b")],
          [collisionLine "r/b" (nodeAfterEmplace lib false "r/a")],
          [(eng.digest (eng.update eng.reset [1, 2, 3]), "r/b")], ["r"], ["r/b", "r/a"]⟩ := by
  have ha : hashFile eng twinsFs.withDatabase "r/a"
      = .ok (eng.digest (eng.update eng.reset [1, 2, 3])) :=
    hashFile_of_small eng twinsFs.withDatabase "r/a" [1, 2, 3] (by decide) (by decide)
  have hb : hashFile eng twinsFs.withDatabase "r/b"
      = .ok (eng.digest (eng.update eng.reset [1, 2, 3])) :=
    hashFile_of_small eng twinsFs.withDatabase "r/b" [1, 2, 3] (by decide) (by decide)
  have d0 : twinsFs.is_directory "r" = true := by decide
  have s0 : twinsFs.statError "r" = none := rfl
  have d1 : twinsFs.withDatabase.is_directory "r" = true := by decide
  have d2 : twinsFs.withDatabase.is_directory "r/a" = false := by decide
  have d3 : twinsFs.withDatabase.is_directory "r/b" = false := by decide
  have l1 : twinsFs.withDatabase.directory_iterator "r" = ["r/a", "r/b"] := by decide
  have s1 : ∀ p, twinsFs.withDatabase.statError p = none := fun _ => rfl
  have e1 : ∀ p, twinsFs.withDatabase.listError p = none := fun _ => rfl
  have i1 : ∀ stream text, twinsFs.withDatabase.dbFile.insert stream text = stream ++ [text] :=
    insert_outsideDb
  have o1 : ∀ lines, twinsFs.dbFile.holds lines = some lines := fun _ => rfl
  simp [main, mainLoop, step, processFile, ha, hb, d0, s0, d1, d2, d3, l1, s1, e1, i1, o1,
    initialState, emplace, nodeAfterEmplace, List.lookup]

theorem main_emptyRootFs {σ : Type} (lib : StdLib) (eng : XXH3 σ) :
    main lib eng emptyRootFs 3 ⟨false, false, "r"⟩
      = some ⟨0, some [dbLine (eng.digest (eng.update eng.reset [])) (lib.movedFrom "r/0.db")],
          [], [(eng.digest (eng.update eng.reset []), "r/0.db")], ["r"], ["r/0.db"]⟩ := by
  have ha : hashFile eng emptyRootFs.withDatabase "r/0.db"
      = .ok (eng.digest (eng.update eng.reset [])) :=
    hashFile_of_small eng emptyRootFs.withDatabase "r/0.db" [] (by decide) (by decide)
  have d0 : emptyRootFs.is_directory "r" = true := by decide
  have s0 : emptyRootFs.statError "r" = none := rfl
  have d1 : emptyRootFs.withDatabase.is_directory "r" = true := by decide
  have d2 : emptyRootFs.withDatabase.is_directory "r/0.db" = false := by decide
  have l1 : emptyRootFs.withDatabase.directory_iterator "r" = ["r/0.db"] := by decide
  have s1 : ∀ p, emptyRootFs.withDatabase.statError p = none := fun _ => rfl
  have e1 : ∀ p, emptyRootFs.withDatabase.listError p = none := fun _ => rfl
  have i1 : ∀ stream text,
      emptyRootFs.withDatabase.dbFile.insert stream text = stream ++ [text] :=
    fun _ _ => insert_of_sound _ _ _ rfl rfl
  have o1 : ∀ lines, emptyRootFs.dbFile.holds lines = some lines := fun _ => rfl
  simp [main, mainLoop, step, processFile, ha, d0, s0, d1, d2, l1, s1, e1, i1, o1,
    initialState, emplace, nodeAfterEmplace, List.lookup]

theorem main_closedDbFs {σ : Type} (lib : StdLib) (eng : XXH3 σ) :
    main lib eng closedDbFs 3 ⟨false, false, "r"⟩
      = some ⟨0, none, [], [(eng.digest (eng.update eng.reset [1, 2, 3]), "r/a")], ["r"],
          ["r/a"]⟩ := by
  have ha : hashFile eng closedDbFs.withDatabase "r/a"
      = .ok (eng.digest (eng.update eng.reset [1, 2, 3])) :=
    hashFile_of_small eng closedDbFs.withDatabase "r/a" [1, 2, 3] (by decide) (by decide)
  have d0 : closedDbFs.is_directory "r" = true := by decide
  have s0 : closedDbFs.statError "r" = none := rfl
  have d1 : closedDbFs.withDatabase.is_directory "r" = true := by decide
  have d2 : closedDbFs.withDatabase.is_directory "r/a" = false := by decide
  have l1 : closedDbFs.withDatabase.directory_iterator "r" = ["r/a"] := by decide
  have s1 : ∀ p, closedDbFs.withDatabase.statError p = none := fun _ => rfl
  have e1 : ∀ p, closedDbFs.withDatabase.listError p = none := fun _ => rfl
  have i1 : ∀ stream text, closedDbFs.withDatabase.dbFile.insert stream text = stream :=
    fun _ _ => insert_of_closed _ _ _ rfl
  have o1 : ∀ lines, closedDbFs.dbFile.holds lines = none := fun _ => rfl
  simp [main, mainLoop, step, processFile, ha, d0, s0, d1, d2, l1, s1, e1, i1, o1,
    initialState, emplace, nodeAfterEmplace, List.lookup]

theorem main_fullDbFs {σ : Type} (lib : StdLib) (eng : XXH3 σ) :
    main lib eng fullDbFs 3 ⟨false, false, "r"⟩
      = some ⟨0, some [], [], [(eng.digest (eng.update eng.reset [1, 2, 3]), "r/a")], ["r"],
          ["r/a"]⟩ := by
  have ha : hashFile eng fullDbFs.withDatabase "r/a"
      = .ok (eng.digest (eng.update eng.reset [1, 2, 3])) :=
    hashFile_of_small eng fullDbFs.withDatabase "r/a" [1, 2, 3] (by decide) (by decide)
  have d0 : fullDbFs.is_directory "r" = true := by decide
  have s0 : fullDbFs.statError "r" = none := rfl
  have d1 : fullDbFs.withDatabase.is_directory "r" = true := by decide
  have d2 : fullDbFs.withDatabase.is_directory "r/a" = false := by decide
  have l1 : fullDbFs.withDatabase.directory_iterator "r" = ["r/a"] := by decide
  have s1 : ∀ p, fullDbFs.withDatabase.statError p = none := fun _ => rfl
  have e1 : ∀ p, fullDbFs.withDatabase.listError p = none := fun _ => rfl
  have i1 : ∀ stream text, fullDbFs.withDatabase.dbFile.insert stream text = stream := by
    intro stream text
    have h1 : fullDbFs.withDatabase.dbFile.opens = true := rfl
    have h2 : fullDbFs.withDatabase.dbFile.capacity = some 0 := rfl
    simp [DbFile.insert, h1, h2]
  have o1 : ∀ lines, fullDbFs.dbFile.holds lines = some lines := fun _ => rfl
  simp [main, mainLoop, step, processFile, ha, d0, s0, d1, d2, l1, s1, e1, i1, o1,
    initialState, emplace, nodeAfterEmplace, List.lookup]

theorem main_lockedDirFs {σ : Type} (lib : StdLib) (eng : XXH3 σ) :
    main lib eng lockedDirFs 3 ⟨false, false, "r"⟩
      = some ⟨1, some [], [errorLine "cannot open directory r/s"], [], ["r"], []⟩ := by
  have d0 : lockedDirFs.is_directory "r" = true := by decide
  have s0 : lockedDirFs.statError "r" = none := rfl
  have d1 : lockedDirFs.withDatabase.is_directory "r" = true := by decide
  have d2 : lockedDirFs.withDatabase.is_directory "r/s" = true := by decide
  have l1 : lockedDirFs.withDatabase.directory_iterator "r" = ["r/a", "r/s"] := by decide
  have s1 : ∀ p, lockedDirFs.withDatabase.statError p = none := fun _ => rfl
  have e1 : lockedDirFs.withDatabase.listError "r" = none := rfl
  have e2 : lockedDirFs.withDatabase.listError "r/s" = some "cannot open directory r/s" := rfl
  have o1 : ∀ lines, lockedDirFs.dbFile.holds lines = some lines := fun _ => rfl
  simp [main, mainLoop, step, d0, s0, d1, d2, l1, s1, e1, e2, o1, initialState]

/-- C7: when the root given in the options is not a directory, `main` returns 1 without
creating a database file, expanding a directory or hashing a file. -/
theorem root_not_directory_is_fatal {σ : Type} (lib : StdLib) (eng : XXH3 σ)
    (fs : FileSystem) (fuel : Nat) (options : RROptions)
    (hroot : fs.is_directory options.rootSearchDirectory = false) :
    ∃ out, main lib eng fs fuel options = some out
      ∧ out.exitStatus = 1 ∧ out.dbFile = none ∧ out.fileMap = []
      ∧ out.expanded = [] ∧ out.hashed = [] := by
  cases hstat : fs.statError options.rootSearchDirectory with
  | some what =>
    have h : main lib eng fs fuel options
        = some ⟨1, none, [errorLine what], [], [], []⟩ := by
      simp [main, hstat]
    exact ⟨_, h, rfl, rfl, rfl, rfl, rfl⟩
  | none =>
    have h : main lib eng fs fuel options
        = some ⟨1, none, ["<dir> must be a directory!\n"], [], [], []⟩ := by
      simp [main, hstat, hroot]
    exact ⟨_, h, rfl, rfl, rfl, rfl, rfl⟩

/-- The regular file `r/a` of `singleFs` given as the root. -/
theorem root_not_directory_is_fatal_witness :
    singleFs.is_directory "r/a" = false
      ∧ ∃ out, main libstdcxx toyXXH3 singleFs 0 ⟨false, false, "r/a"⟩ = some out
          ∧ out.exitStatus = 1 ∧ out.dbFile = none ∧ out.fileMap = []
          ∧ out.expanded = [] ∧ out.hashed = [] :=
  ⟨by decide, root_not_directory_is_fatal libstdcxx toyXXH3 singleFs 0 ⟨false, false, "r/a"⟩
    (by decide)⟩

/-! ## Index and database stay in step -/

theorem processFile_index_cases {σ : Type} (lib : StdLib) (eng : XXH3 σ) (fs : FileSystem)
    (node : Path) (st : RunState) :
    ((processFile lib eng fs node st).fileMap = st.fileMap
        ∧ (processFile lib eng fs node st).dbStream = st.dbStream)
      ∨ ∃ hash, hashFile eng fs node = .ok hash ∧ st.fileMap.lookup hash = none
          ∧ (processFile lib eng fs node st).fileMap = st.fileMap ++ [(hash, node)]
          ∧ (processFile lib eng fs node st).dbStream
              = fs.dbFile.insert st.dbStream (dbLine hash (lib.movedFrom node)) := by
  cases hh : hashFile eng fs node with
  | error what =>
    rw [processFile_of_error lib eng fs node _ what hh]
    exact Or.inl ⟨rfl, rfl⟩
  | ok hash =>
    cases hl : st.fileMap.lookup hash with
    | none =>
      rw [processFile_of_accept lib eng fs node _ hash hh hl]
      exact Or.inr ⟨hash, rfl, hl, rfl, rfl⟩
    | some existing =>
      rw [processFile_of_collision lib eng fs node _ hash existing hh hl]
      exact Or.inl ⟨rfl, rfl⟩

theorem step_index_cases {σ : Type} (lib : StdLib) (eng : XXH3 σ) (fs : FileSystem)
    (st next : RunState) (hstep : step lib eng fs st = .ok next) :
    (next.fileMap = st.fileMap ∧ next.dbStream = st.dbStream)
      ∨ ∃ hash node, hashFile eng fs node = .ok hash ∧ st.fileMap.lookup hash = none
          ∧ next.fileMap = st.fileMap ++ [(hash, node)]
          ∧ next.dbStream = fs.dbFile.insert st.dbStream (dbLine hash (lib.movedFrom node)) := by
  cases hst : st.searchContainer with
  | nil =>
    simp only [step, hst] at hstep
    cases hstep
    exact Or.inl ⟨rfl, rfl⟩
  | cons p rest =>
    cases hstat : fs.statError p with
    | some what => simp [step, hst, hstat] at hstep
    | none =>
      cases hdir : fs.is_directory p with
      | true =>
        cases hlist : fs.listError p with
        | some what => simp [step, hst, hstat, hdir, hlist] at hstep
        | none =>
          rw [step_of_directory lib eng fs st p rest hst hstat hdir hlist] at hstep
          cases hstep
          exact Or.inl ⟨rfl, rfl⟩
      | false =>
        rw [step_of_file lib eng fs st p rest hst hstat hdir] at hstep
        cases hstep
        rcases processFile_index_cases lib eng fs p st with h | ⟨hash, h1, h2, h3, h4⟩
        · exact Or.inl h
        · exact Or.inr ⟨hash, p, h1, h2, h3, h4⟩

theorem forall₂_append_singleton {α β : Type} (R : α → β → Prop) (xs : List α) (ys : List β)
    (x : α) (y : β) (h : List.Forall₂ R xs ys) (hxy : R x y) :
    List.Forall₂ R (xs ++ [x]) (ys ++ [y]) := by
  induction h with
  | nil => exact List.Forall₂.cons hxy List.Forall₂.nil
  | cons hab _ ih => exact List.Forall₂.cons hab ih

theorem corresponds_digests (lines : List String) (fileMap : List (XXH64_hash_t × Path))
    (h : Corresponds lines fileMap) :
    lines.map lineDigest = fileMap.map Prod.fst ∧ (lines.map lineDigest).Nodup := by
  have hmap : lines.map lineDigest = fileMap.map Prod.fst := by
    have h₁ := h.1
    induction h₁ with
    | nil => rfl
    | cons hab _ ih =>
      simp only [List.map_cons]
      rw [hab.2.1]
      congr 1
      exact ih ⟨by assumption, (List.nodup_cons.1 (by simpa using h.2)).2⟩
  exact ⟨hmap, hmap ▸ h.2⟩

theorem corresponds_step {σ : Type} (lib : StdLib) (eng : XXH3 σ) (fs : FileSystem)
    (hopen : fs.dbFile.opens = true) (hcap : fs.dbFile.capacity = none)
    (st next : RunState) (hstep : step lib eng fs st = .ok next)
    (h : Corresponds st.dbStream st.fileMap) :
    Corresponds next.dbStream next.fileMap := by
  rcases step_index_cases lib eng fs st next hstep with ⟨h1, h2⟩ | ⟨hash, node, _, hl, h1, h2⟩
  · rw [h1, h2]; exact h
  · rw [h1, h2, insert_of_sound _ _ _ hopen hcap]
    refine ⟨forall₂_append_singleton _ _ _ _ _ h.1
      ⟨⟨_, rfl⟩, lineDigest_dbLine _ _, dbLine_getLast _ _⟩, ?_⟩
    rw [List.map_append, List.nodup_append]
    refine ⟨h.2, by simp, ?_⟩
    intro a ha hb
    simp only [List.map_cons, List.map_nil, List.mem_singleton] at hb
    subst hb
    obtain ⟨e, he, rfl⟩ := List.mem_map.1 ha
    have := List.lookup_eq_none_iff.1 hl e he
    simp at this

theorem corresponds_iterations {σ : Type} (lib : StdLib) (eng : XXH3 σ) (fs : FileSystem)
    (hopen : fs.dbFile.opens = true) (hcap : fs.dbFile.capacity = none)
    (n : Nat) (st last : RunState) (hrun : iterations lib eng fs n st = some last)
    (h : Corresponds st.dbStream st.fileMap) :
    Corresponds last.dbStream last.fileMap := by
  induction n generalizing st with
  | zero =>
    simp only [iterations] at hrun
    cases hrun
    exact h
  | succ n ih =>
    simp only [iterations] at hrun
    cases hstep : step lib eng fs st with
    | error what => simp [hstep] at hrun
    | ok next =>
      rw [hstep] at hrun
      exact ih next hrun (corresponds_step lib eng fs hopen hcap st next hstep h)

theorem mainLoop_iterations {σ : Type} (lib : StdLib) (eng : XXH3 σ) (fs : FileSystem)
    (fuel : Nat) (st : RunState) (r : LoopEnd) (h : mainLoop lib eng fs fuel st = some r) :
    ∃ n last, iterations lib eng fs n st = some last
      ∧ (r = .finished last ∨ ∃ what, r = .thrown last what) := by
  induction fuel generalizing st with
  | zero => simp [mainLoop] at h
  | succ fuel ih =>
    simp only [mainLoop] at h
    split at h
    · cases h
      exact ⟨0, st, rfl, Or.inl rfl⟩
    · cases hstep : step lib eng fs st with
      | error what =>
        rw [hstep] at h
        cases h
        exact ⟨0, st, rfl, Or.inr ⟨what, rfl⟩⟩
      | ok next =>
        rw [hstep] at h
        obtain ⟨n, last, hn, hr⟩ := ih next h
        exact ⟨n + 1, last, by simp [iterations, hstep, hn], hr⟩

theorem iterations_closedDbFs {σ : Type} (lib : StdLib) (eng : XXH3 σ) :
    iterations lib eng closedDbFs.withDatabase 2 (initialState "r")
      = some ⟨[], [(eng.digest (eng.update eng.reset [1, 2, 3]), "r/a")], [], [], ["r"],
          ["r/a"]⟩ := by
  have ha : hashFile eng closedDbFs.withDatabase "r/a"
      = .ok (eng.digest (eng.update eng.reset [1, 2, 3])) :=
    hashFile_of_small eng closedDbFs.withDatabase "r/a" [1, 2, 3] (by decide) (by decide)
  have d1 : closedDbFs.withDatabase.is_directory "r" = true := by decide
  have d2 : closedDbFs.withDatabase.is_directory "r/a" = false := by decide
  have l1 : closedDbFs.withDatabase.directory_iterator "r" = ["r/a"] := by decide
  have s1 : ∀ p, closedDbFs.withDatabase.statError p = none := fun _ => rfl
  have e1 : ∀ p, closedDbFs.withDatabase.listError p = none := fun _ => rfl
  have i1 : ∀ stream text, closedDbFs.withDatabase.dbFile.insert stream text = stream :=
    fun _ _ => insert_of_closed _ _ _ rfl
  simp [iterations, step, processFile, ha, d1, d2, l1, s1, e1, i1, initialState, emplace,
    nodeAfterEmplace, List.lookup]

/-! ## Claim about the correspondence of database and index -/

/-- C4, as stated, fails when the database stream fails, which `main` never tests. On
`closedDbFs` the database file cannot be opened: the file `r/a` is entered into the
index, after two iterations and at the end of the run, while no database line is written
and no database file exists. On `fullDbFs` the file is opened but no write to it
succeeds: the index has its entry for `r/a` and the database is empty. -/
theorem index_entry_without_database_line :
    (closedDbFs.dbFile.opens = false
        ∧ iterations libstdcxx toyXXH3 closedDbFs.withDatabase 2 (initialState "r")
          = some ⟨[], [(209563, "r/a")], [], [], ["r"], ["r/a"]⟩
        ∧ main libstdcxx toyXXH3 closedDbFs 3 ⟨false, false, "r"⟩
          = some ⟨0, none, [], [(209563, "r/a")], ["r"], ["r/a"]⟩)
      ∧ (fullDbFs.dbFile.opens = true ∧ fullDbFs.dbFile.capacity = some 0
        ∧ main libstdcxx toyXXH3 fullDbFs 3 ⟨false, false, "r"⟩
          = some ⟨0, some [], [], [(209563, "r/a")], ["r"], ["r/a"]⟩) :=
  ⟨⟨rfl, iterations_closedDbFs libstdcxx toyXXH3, main_closedDbFs libstdcxx toyXXH3⟩,
    ⟨rfl, rfl, main_fullDbFs libstdcxx toyXXH3⟩⟩

/-- C4, amended: when the database file could be opened and no write to it fails, then
after any number of iterations of the loop the database lines correspond one to one, in
order, to the entries of the index: each line is the decimal key of its entry, a bar, a
quoted path field and a newline, and the number it carries in front of the bar is that
key; the keys are pairwise distinct, so no two lines carry the same digest; an iteration
either leaves index and database unchanged or appends one entry under a new key and one
line carrying that key; and the same correspondence holds for what a run leaves behind,
whether it ends normally or by an exception. -/
theorem database_lines_match_index_keys {σ : Type} (lib : StdLib) (eng : XXH3 σ)
    (fs : FileSystem) (root : Path)
    (hopen : fs.dbFile.opens = true) (hcap : fs.dbFile.capacity = none) :
    (∀ n st, iterations lib eng fs.withDatabase n (initialState root) = some st →
        Corresponds st.dbStream st.fileMap
          ∧ st.dbStream.map lineDigest = st.fileMap.map Prod.fst
          ∧ (st.dbStream.map lineDigest).Nodup)
      ∧ (∀ st next : RunState, step lib eng fs.withDatabase st = .ok next →
          (next.fileMap = st.fileMap ∧ next.dbStream = st.dbStream)
            ∨ ∃ hash node line, st.fileMap.lookup hash = none
                ∧ next.fileMap = st.fileMap ++ [(hash, node)]
                ∧ next.dbStream = st.dbStream ++ [line]
                ∧ lineDigest line = hash)
      ∧ (∀ fuel verbose dryRun out lines,
          main lib eng fs fuel ⟨verbose, dryRun, root⟩ = some out → out.dbFile = some lines
            → Corresponds lines out.fileMap
              ∧ lines.map lineDigest = out.fileMap.map Prod.fst
              ∧ (lines.map lineDigest).Nodup) := by
  have hinit : Corresponds (initialState root).dbStream (initialState root).fileMap :=
    ⟨List.Forall₂.nil, List.nodup_nil⟩
  have hall : ∀ n st, iterations lib eng fs.withDatabase n (initialState root) = some st →
      Corresponds st.dbStream st.fileMap
        ∧ st.dbStream.map lineDigest = st.fileMap.map Prod.fst
        ∧ (st.dbStream.map lineDigest).Nodup := by
    intro n st hrun
    have hc := corresponds_iterations lib eng fs.withDatabase hopen hcap n _ st hrun hinit
    exact ⟨hc, corresponds_digests _ _ hc⟩
  refine ⟨hall, ?_, ?_⟩
  · intro st next hstep
    rcases step_index_cases lib eng fs.withDatabase st next hstep with
      h | ⟨hash, node, _, hl, h1, h2⟩
    · exact Or.inl h
    · refine Or.inr ⟨hash, node, _, hl, h1, ?_, lineDigest_dbLine hash (lib.movedFrom node)⟩
      rw [h2]
      exact insert_of_sound _ _ _ hopen hcap
  · intro fuel verbose dryRun out lines hmain hdb
    simp only [main] at hmain
    split at hmain
    · cases hmain
      cases hdb
    · split at hmain
      · cases hmain
        cases hdb
      · split at hmain
        · cases hmain
        · rename_i st hloop
          cases hmain
          obtain ⟨n, last, hn, hr⟩ := mainLoop_iterations lib eng fs.withDatabase fuel _ _ hloop
          have hlast : last = st := by
            rcases hr with hr | ⟨what, hr⟩
            · cases hr; rfl
            · cases hr
          subst hlast
          simp only [DbFile.holds, hopen, if_true, Option.some.injEq] at hdb
          subst hdb
          exact hall n _ hn
        · rename_i st what hloop
          cases hmain
          obtain ⟨n, last, hn, hr⟩ := mainLoop_iterations lib eng fs.withDatabase fuel _ _ hloop
          have hlast : last = st := by
            rcases hr with hr | ⟨what₂, hr⟩
            · cases hr
            · cases hr; rfl
          subst hlast
          simp only [DbFile.holds, hopen, if_true, Option.some.injEq] at hdb
          subst hdb
          exact hall n _ hn

/-- The run over `twinsFs`, two files with one digest, with a database file that opens:
one line, one index entry. -/
theorem database_lines_match_index_keys_witness :
    twinsFs.dbFile.opens = true ∧ twinsFs.dbFile.capacity = none
      ∧ main libstdcxx toyXXH3 twinsFs 4 ⟨false, false, "r"⟩
        = some ⟨0, some [dbLine 209563 ""], [collisionLine "r/b" ""], [(209563, "r/b")],
            ["r"], ["r/b", "r/a"]⟩
      ∧ Corresponds [dbLine 209563 ""] [(209563, "r/b")]
      ∧ [dbLine 209563 ""].map lineDigest = [(209563, "r/b")].map Prod.fst
      ∧ ([dbLine 209563 ""].map lineDigest).Nodup :=
  ⟨rfl, rfl, main_twinsFs libstdcxx toyXXH3,
    (database_lines_match_index_keys libstdcxx toyXXH3 twinsFs "r" rfl rfl).2.2 4 false false _ _
      (main_twinsFs libstdcxx toyXXH3) rfl⟩



/-! ## Whole runs on a finite tree -/

theorem main_of_withinDepth {σ : Type} (lib : StdLib) (eng : XXH3 σ) (fs : FileSystem)
    (d : Nat) (root : Path) (verbose dryRun : Bool)
    (hroot : fs.is_directory root = true) (hfin : withinDepth fs.withDatabase d root = true)
    (fuel : Nat) (hfuel : loopIterations fs.withDatabase d root < fuel) :
    main lib eng fs fuel ⟨verbose, dryRun, root⟩
      = some ⟨0,
          fs.dbFile.holds (runFiles lib eng fs.withDatabase (visitOrder fs.withDatabase d root)
            (initialState root)).dbStream,
          (runFiles lib eng fs.withDatabase (visitOrder fs.withDatabase d root)
            (initialState root)).cerr,
          (runFiles lib eng fs.withDatabase (visitOrder fs.withDatabase d root)
            (initialState root)).fileMap,
          expandOrder fs.withDatabase d root, visitOrder fs.withDatabase d root⟩ := by
  have hstat : fs.statError root = none := withinDepth_statError fs.withDatabase d root hfin
  simp only [main, hstat, hroot,
    mainLoop_of_withinDepth lib eng fs.withDatabase d root hfin fuel hfuel]
  simp [afterEntries, withWalk, runFiles_hashed, initialState]

theorem runFiles_all_accepted {σ : Type} (lib : StdLib) (eng : XXH3 σ) (fs : FileSystem)
    (hopen : fs.dbFile.opens = true) (hcap : fs.dbFile.capacity = none)
    (files : List Path) (st : RunState)
    (hread : ∀ f ∈ files, ∃ h, hashFile eng fs f = .ok h)
    (hdist : (files.map (hashFile eng fs)).Nodup)
    (hnew : ∀ f ∈ files, ∀ h, hashFile eng fs f = .ok h → st.fileMap.lookup h = none) :
    ∃ lines, (runFiles lib eng fs files st).dbStream = st.dbStream ++ lines
      ∧ List.Forall₂
          (fun line f => ∃ h, hashFile eng fs f = .ok h ∧ line = dbLine h (lib.movedFrom f))
          lines files
      ∧ (runFiles lib eng fs files st).cerr = st.cerr
      ∧ (runFiles lib eng fs files st).fileMap
          = st.fileMap ++ (lines.map lineDigest).zip files := by
  induction files generalizing st with
  | nil => exact ⟨[], by simp [runFiles], List.Forall₂.nil, rfl, by simp [runFiles]⟩
  | cons f files ih =>
    obtain ⟨h, hh⟩ := hread f (List.mem_cons_self _ _)
    have hl := hnew f (List.mem_cons_self _ _) h hh
    have hstep := processFile_of_accept lib eng fs f st h hh hl
    rw [insert_of_sound _ _ _ hopen hcap] at hstep
    rw [List.map_cons, List.nodup_cons] at hdist
    obtain ⟨lines, h1, h2, h3, h4⟩ := ih (processFile lib eng fs f st)
      (fun g hg => hread g (List.mem_cons_of_mem _ hg)) hdist.2
      (by
        intro g hg h₂ hg₂
        rw [hstep]
        have hne : h₂ ≠ h := by
          rintro rfl
          exact hdist.1 (List.mem_map.2 ⟨g, hg, by rw [hg₂, hh]⟩)
        rw [List.lookup_append, hnew g (List.mem_cons_of_mem _ hg) h₂ hg₂]
        have hbeq : (h₂ == h) = false := by simpa using hne
        simp [List.lookup, hbeq])
    refine ⟨dbLine h (lib.movedFrom f) :: lines, ?_, List.Forall₂.cons ⟨h, hh, rfl⟩ h2, ?_, ?_⟩
    · simp only [runFiles, List.foldl_cons] at h1 ⊢
      rw [h1, hstep]
      simp
    · simp only [runFiles, List.foldl_cons] at h3 ⊢
      rw [h3, hstep]
    · simp only [runFiles, List.foldl_cons] at h4 ⊢
      rw [h4, hstep]
      simp [lineDigest_dbLine]

theorem accepted_lines_digests {σ : Type} (lib : StdLib) (eng : XXH3 σ) (fs : FileSystem)
    (lines : List String) (files : List Path)
    (h2 : List.Forall₂
      (fun line f => ∃ h, hashFile eng fs f = .ok h ∧ line = dbLine h (lib.movedFrom f))
      lines files) :
    lines.map lineDigest
      = files.map (fun f => match hashFile eng fs f with
          | .ok h => h
          | .error _ => 0) := by
  induction h2 with
  | nil => rfl
  | cons hab _ ih =>
    obtain ⟨h, hh, hline⟩ := hab
    simp only [List.map_cons, hh, hline, lineDigest_dbLine]
    congr 1

theorem accepted_lines_shape {σ : Type} (lib : StdLib) (eng : XXH3 σ) (fs : FileSystem)
    (lines : List String) (files : List Path)
    (h2 : List.Forall₂
      (fun line f => ∃ h, hashFile eng fs f = .ok h ∧ line = dbLine h (lib.movedFrom f))
      lines files) :
    List.Forall₂
      (fun line f => ∃ h p, hashFile eng fs f = .ok h
        ∧ line = toString h ++ "|" ++ quoted p ++ "\n"
        ∧ lineDigest line = h
        ∧ line.data.getLast? = some NEWLINE
        ∧ (h, f) ∈ (lines.map lineDigest).zip files)
      lines files := by
  induction h2 with
  | nil => exact List.Forall₂.nil
  | cons hab _ ih =>
    obtain ⟨h, hh, hline⟩ := hab
    refine List.Forall₂.cons ⟨h, _, hh, hline, ?_, ?_, ?_⟩ (ih.imp ?_)
    · rw [hline]; exact lineDigest_dbLine _ _
    · rw [hline]; exact dbLine_getLast _ _
    · simp [hline, lineDigest_dbLine]
    · rintro line f ⟨h₂, p, q1, q2, q3, q4, q5⟩
      exact ⟨h₂, p, q1, q2, q3, q4, by
        simp only [List.map_cons, List.zip_cons_cons]
        exact List.mem_cons_of_mem _ q5⟩

/-! ## Claim about completeness -/

/-- C5, as stated, fails in four ways. The empty directory of `emptyRootFs` is the
working directory: the run finds its own database file there, hashes it and writes one
line, where the claim has an empty database for no files. In `closedDbFs` and `fullDbFs`
the one file `r/a` is readable, but the database stream, which `main` never tests, cannot
be opened or takes no write: the run returns 0 with no database file or an empty one. In
`lockedDirFs` the one file `r/a` is readable, but listing the directory `r/s` throws: the
run returns 1 and writes no line. -/
theorem completeness_fails_without_conditions :
    (emptyRootFs.is_directory "r" = true ∧ filesUnder emptyRootFs 1 "r" = []
        ∧ main libstdcxx toyXXH3 emptyRootFs 3 ⟨false, false, "r"⟩
          = some ⟨0, some [dbLine 7 ""], [], [(7, "r/0.db")], ["r"], ["r/0.db"]⟩)
      ∧ (filesUnder closedDbFs 1 "r" = ["r/a"] ∧ hashFile toyXXH3 closedDbFs "r/a" = .ok 209563
        ∧ main libstdcxx toyXXH3 closedDbFs 3 ⟨false, false, "r"⟩
          = some ⟨0, none, [], [(209563, "r/a")], ["r"], ["r/a"]⟩)
      ∧ (filesUnder fullDbFs 1 "r" = ["r/a"] ∧ hashFile toyXXH3 fullDbFs "r/a" = .ok 209563
        ∧ main libstdcxx toyXXH3 fullDbFs 3 ⟨false, false, "r"⟩
          = some ⟨0, some [], [], [(209563, "r/a")], ["r"], ["r/a"]⟩)
      ∧ (filesUnder lockedDirFs 2 "r" = ["r/a"] ∧ hashFile toyXXH3 lockedDirFs "r/a" = .ok 218
        ∧ main libstdcxx toyXXH3 lockedDirFs 3 ⟨false, false, "r"⟩
          = some ⟨1, some [], [errorLine "cannot open directory r/s"], [], ["r"], []⟩) :=
  ⟨⟨by decide, by decide, main_emptyRootFs libstdcxx toyXXH3⟩,
    ⟨by decide, hashFile_of_small toyXXH3 closedDbFs "r/a" [1, 2, 3] rfl (by decide),
      main_closedDbFs libstdcxx toyXXH3⟩,
    ⟨by decide, hashFile_of_small toyXXH3 fullDbFs "r/a" [1, 2, 3] rfl (by decide),
      main_fullDbFs libstdcxx toyXXH3⟩,
    ⟨by decide, hashFile_of_small toyXXH3 lockedDirFs "r/a" [1] rfl (by decide),
      main_lockedDirFs libstdcxx toyXXH3⟩⟩

/-- C5, amended: take the tree under the root as it stands once line 118 has created the
database file, that file included when it lies under the root. When the root is a
directory, the tree is finite, neither `fs::is_directory` nor `fs::directory_iterator`
throws on it, the database file could be opened and no write to it fails, and all files
of the tree are hashed successfully to pairwise distinct digests, then the run ends with
exit status 0 and no diagnostics, and leaves a database of exactly as many lines as the
tree has files, one per file: the line is the decimal digest of that file, a bar, a quoted
path field and a newline, the number in front of its bar is that digest, the index maps
that digest to that file, and no two lines carry the same digest; with no files the
database is empty. -/
theorem completeness_without_failures {σ : Type} (lib : StdLib) (eng : XXH3 σ)
    (fs : FileSystem) (d : Nat) (root : Path) (verbose dryRun : Bool)
    (hroot : fs.is_directory root = true) (hfin : withinDepth fs.withDatabase d root = true)
    (hopen : fs.dbFile.opens = true) (hcap : fs.dbFile.capacity = none)
    (hread : ∀ f ∈ filesUnder fs.withDatabase d root, ∃ h, hashFile eng fs.withDatabase f = .ok h)
    (hdist : ((filesUnder fs.withDatabase d root).map (hashFile eng fs.withDatabase)).Nodup)
    (fuel : Nat) (hfuel : loopIterations fs.withDatabase d root < fuel) :
    ∃ out lines order,
      main lib eng fs fuel ⟨verbose, dryRun, root⟩ = some out
        ∧ out.exitStatus = 0
        ∧ out.cerr = []
        ∧ out.dbFile = some lines
        ∧ lines.length = (filesUnder fs.withDatabase d root).length
        ∧ order.Perm (filesUnder fs.withDatabase d root)
        ∧ out.hashed = order
        ∧ List.Forall₂
            (fun line f => ∃ h p, hashFile eng fs.withDatabase f = .ok h
              ∧ line = toString h ++ "|" ++ quoted p ++ "\n"
              ∧ lineDigest line = h
              ∧ line.data.getLast? = some NEWLINE
              ∧ (h, f) ∈ out.fileMap)
            lines order
        ∧ (lines.map lineDigest).Nodup
        ∧ (filesUnder fs.withDatabase d root = [] → lines = []) := by
  have hN := main_of_withinDepth lib eng fs d root verbose dryRun hroot hfin fuel hfuel
  have hperm := visitOrder_perm fs.withDatabase d root
  obtain ⟨lines, h1, h2, h3, h4⟩ := runFiles_all_accepted lib eng fs.withDatabase hopen hcap
    (visitOrder fs.withDatabase d root)
    (initialState root) (fun f hf => hread f (hperm.mem_iff.1 hf))
    ((hperm.map _).nodup_iff.2 hdist) (fun _ _ _ _ => rfl)
  have hlen : lines.length = (filesUnder fs.withDatabase d root).length := by
    rw [h2.length_eq, hperm.length_eq]
  have hdb : (runFiles lib eng fs.withDatabase (visitOrder fs.withDatabase d root)
      (initialState root)).dbStream = lines := by
    rw [h1]
    simp [initialState]
  have hmap : (runFiles lib eng fs.withDatabase (visitOrder fs.withDatabase d root)
      (initialState root)).fileMap
        = (lines.map lineDigest).zip (visitOrder fs.withDatabase d root) := by
    rw [h4]
    simp [initialState]
  have hok : ∀ f ∈ visitOrder fs.withDatabase d root, ∀ g ∈ visitOrder fs.withDatabase d root,
      hashFile eng fs.withDatabase f = hashFile eng fs.withDatabase g → f = g :=
    fun f hf g hg hfg => List.inj_on_of_nodup_map ((hperm.map _).nodup_iff.2 hdist) hf hg hfg
  have hdigests := accepted_lines_digests lib eng fs.withDatabase lines _ h2
  have hnodup : (lines.map lineDigest).Nodup := by
    rw [hdigests]
    have hnd := (hperm.map (hashFile eng fs.withDatabase)).nodup_iff.2 hdist
    refine List.Nodup.map_on ?_ (List.Nodup.of_map _ hnd)
    intro f hf g hg hfg
    apply hok f hf g hg
    obtain ⟨a, ha⟩ := hread f (hperm.mem_iff.1 hf)
    obtain ⟨b, hb⟩ := hread g (hperm.mem_iff.1 hg)
    rw [ha, hb] at hfg ⊢
    simp only at hfg
    rw [hfg]
  refine ⟨_, lines, visitOrder fs.withDatabase d root, hN, rfl, ?_, ?_, hlen, hperm, rfl, ?_,
    hnodup, ?_⟩
  · simp only [h3]
    rfl
  · simp only [hdb]
    simp [DbFile.holds, hopen]
  · simp only [hmap]
    exact accepted_lines_shape lib eng fs.withDatabase lines _ h2
  · intro hnil
    rw [hnil] at hlen
    exact List.length_eq_zero.1 hlen

theorem filesUnder_nestedFs : filesUnder nestedFs.withDatabase 2 "r" = ["r/a", "r/s/b"] := by
  decide

theorem hashFile_nestedFs_a : hashFile toyXXH3 nestedFs.withDatabase "r/a" = .ok 218 :=
  hashFile_of_small toyXXH3 nestedFs.withDatabase "r/a" [1] (by decide) (by decide)

theorem hashFile_nestedFs_b : hashFile toyXXH3 nestedFs.withDatabase "r/s/b" = .ok 219 :=
  hashFile_of_small toyXXH3 nestedFs.withDatabase "r/s/b" [2] (by decide) (by decide)

/-- The run over `nestedFs`: two readable files with the digests 218 and 219, the
database file outside the tree. -/
theorem completeness_without_failures_witness :
    nestedFs.is_directory "r" = true ∧ withinDepth nestedFs.withDatabase 2 "r" = true
      ∧ nestedFs.dbFile.opens = true ∧ nestedFs.dbFile.capacity = none
      ∧ filesUnder nestedFs.withDatabase 2 "r" = ["r/a", "r/s/b"]
      ∧ hashFile toyXXH3 nestedFs.withDatabase "r/a" = .ok 218
      ∧ hashFile toyXXH3 nestedFs.withDatabase "r/s/b" = .ok 219
      ∧ loopIterations nestedFs.withDatabase 2 "r" < 5
      ∧ ∃ out lines order,
          main libstdcxx toyXXH3 nestedFs 5 ⟨false, false, "r"⟩ = some out
            ∧ out.exitStatus = 0
            ∧ out.cerr = []
            ∧ out.dbFile = some lines
            ∧ lines.length = (filesUnder nestedFs.withDatabase 2 "r").length
            ∧ order.Perm (filesUnder nestedFs.withDatabase 2 "r")
            ∧ out.hashed = order
            ∧ List.Forall₂
                (fun line f => ∃ h p, hashFile toyXXH3 nestedFs.withDatabase f = .ok h
                  ∧ line = toString h ++ "|" ++ quoted p ++ "\n"
                  ∧ lineDigest line = h
                  ∧ line.data.getLast? = some NEWLINE
                  ∧ (h, f) ∈ out.fileMap)
                lines order
            ∧ (lines.map lineDigest).Nodup
            ∧ (filesUnder nestedFs.withDatabase 2 "r" = [] → lines = []) :=
  have hdist : ((filesUnder nestedFs.withDatabase 2 "r").map
      (hashFile toyXXH3 nestedFs.withDatabase)).Nodup := by
    rw [filesUnder_nestedFs]
    simp [hashFile_nestedFs_a, hashFile_nestedFs_b]
  ⟨by decide, by decide, rfl, rfl, filesUnder_nestedFs, hashFile_nestedFs_a, hashFile_nestedFs_b,
    by decide,
    completeness_without_failures libstdcxx toyXXH3 nestedFs 2 "r" false false
      (by decide) (by decide) rfl rfl
      (by
        rw [filesUnder_nestedFs]
        intro f hf
        simp only [List.mem_cons, List.mem_singleton, List.not_mem_nil, or_false] at hf
        rcases hf with rfl | rfl
        · exact ⟨_, hashFile_nestedFs_a⟩
        · exact ⟨_, hashFile_nestedFs_b⟩)
      hdist 5 (by decide)⟩



/-! ## The diagnostics of a failing file -/

/-- C1: on a directory holding the one readable file `r/a`, with a library that leaves a
moved-from path empty, the run accepts the file into the index under its own path, but
the database line written for it has an empty path field: line 167 writes `node` after
line 160 moved from it. The line is not the digest, the bar, the path of the file and a
newline, neither with the path plain nor with the path quoted; with the toy engine the
path does not occur in the line at all. -/
theorem accepted_file_line_has_empty_path {σ : Type} (eng : XXH3 σ) :
    main libstdcxx eng singleFs 3 ⟨false, false, "r"⟩
        = some ⟨0, some [dbLine (eng.digest (eng.update eng.reset [1, 2, 3])) ""], [],
            [(eng.digest (eng.update eng.reset [1, 2, 3]), "r/a")], ["r"], ["r/a"]⟩
      ∧ main libcxx eng singleFs 3 ⟨false, false, "r"⟩
        = some ⟨0, some [dbLine (eng.digest (eng.update eng.reset [1, 2, 3])) ""], [],
            [(eng.digest (eng.update eng.reset [1, 2, 3]), "r/a")], ["r"], ["r/a"]⟩
      ∧ dbLine (eng.digest (eng.update eng.reset [1, 2, 3])) ""
        = toString (eng.digest (eng.update eng.reset [1, 2, 3])) ++ "|"
            ++ String.mk [DQUOTE, DQUOTE] ++ "\n"
      ∧ dbLine (eng.digest (eng.update eng.reset [1, 2, 3])) ""
        ≠ toString (eng.digest (eng.update eng.reset [1, 2, 3])) ++ "|" ++ "r/a" ++ "\n"
      ∧ dbLine (eng.digest (eng.update eng.reset [1, 2, 3])) ""
        ≠ dbLine (eng.digest (eng.update eng.reset [1, 2, 3])) "r/a"
      ∧ ¬ ("r/a".data
            <:+: (dbLine (toyXXH3.digest (toyXXH3.update toyXXH3.reset [1, 2, 3])) "").data) := by
  refine ⟨main_singleFs libstdcxx eng, main_singleFs libcxx eng, rfl, ?_, ?_, by decide⟩
  · intro h
    have h₁ := congrArg String.data h
    simp only [dbLine, String.data_append, List.append_assoc, List.append_cancel_left_eq] at h₁
    revert h₁
    decide
  · intro h
    have h₁ := congrArg String.data h
    simp only [dbLine, String.data_append, List.append_assoc, List.append_cancel_left_eq] at h₁
    revert h₁
    decide

/-- C2: two files with one digest, `r/b` reached first and `r/a` second, with a library
that leaves a moved-from path empty: the index maps the digest to `r/b`, but the only
database line has an empty path field, so the database has no line with the path of
`r/b`. -/
theorem first_writer_line_lacks_its_path {σ : Type} (eng : XXH3 σ) :
    ∃ out, main libstdcxx eng twinsFs 4 ⟨false, false, "r"⟩ = some out
      ∧ out.hashed = ["r/b", "r/a"]
      ∧ hashFile eng twinsFs "r/b" = .ok (eng.digest (eng.update eng.reset [1, 2, 3]))
      ∧ hashFile eng twinsFs "r/a" = .ok (eng.digest (eng.update eng.reset [1, 2, 3]))
      ∧ out.fileMap = [(eng.digest (eng.update eng.reset [1, 2, 3]), "r/b")]
      ∧ out.dbFile = some [dbLine (eng.digest (eng.update eng.reset [1, 2, 3])) ""]
      ∧ dbLine (eng.digest (eng.update eng.reset [1, 2, 3])) ""
        ≠ dbLine (eng.digest (eng.update eng.reset [1, 2, 3])) "r/b"
      ∧ dbLine (eng.digest (eng.update eng.reset [1, 2, 3])) ""
        ≠ toString (eng.digest (eng.update eng.reset [1, 2, 3])) ++ "|" ++ "r/b" ++ "\n"
      ∧ ¬ ("r/b".data
            <:+: (dbLine (toyXXH3.digest (toyXXH3.update toyXXH3.reset [1, 2, 3])) "").data) := by
  refine ⟨_, main_twinsFs libstdcxx eng, rfl,
    hashFile_of_small eng twinsFs "r/b" [1, 2, 3] rfl (by decide),
    hashFile_of_small eng twinsFs "r/a" [1, 2, 3] rfl (by decide), rfl, rfl, ?_, ?_, by decide⟩
  · intro h
    have h₁ := congrArg String.data h
    simp only [dbLine, String.data_append, List.append_assoc, List.append_cancel_left_eq] at h₁
    revert h₁
    decide
  · intro h
    have h₁ := congrArg String.data h
    simp only [dbLine, String.data_append, List.append_assoc, List.append_cancel_left_eq] at h₁
    revert h₁
    decide

/-- C3: two files with one digest, `r/a` rejected against `r/b`: no database line is
written for `r/a` and the index keeps its one entry, but with a library whose `emplace`
builds the element first the one collision report names `r/b` and an empty path instead
of `r/a`; with a library that looks the key up first it names both. -/
theorem collision_report_lacks_rejected_path {σ : Type} (eng : XXH3 σ) :
    (∃ out, main libstdcxx eng twinsFs 4 ⟨false, false, "r"⟩ = some out
        ∧ out.fileMap = [(eng.digest (eng.update eng.reset [1, 2, 3]), "r/b")]
        ∧ out.dbFile = some [dbLine (eng.digest (eng.update eng.reset [1, 2, 3])) ""]
        ∧ out.cerr = [collisionLine "r/b" ""])
      ∧ collisionLine "r/b" "" ≠ collisionLine "r/b" "r/a"
      ∧ ¬ ("r/a".data <:+: (collisionLine "r/b" "").data)
      ∧ (∃ out, main libcxx eng twinsFs 4 ⟨false, false, "r"⟩ = some out
          ∧ out.cerr = [collisionLine "r/b" "r/a"]) :=
  ⟨⟨_, main_twinsFs libstdcxx eng, rfl, rfl, rfl⟩, by decide, by decide,
    ⟨_, main_twinsFs libcxx eng, rfl⟩⟩


end RedoRename
